import Mathlib

/-!
Verification development for the goldboot image format (GBF) core, a shallow
embedding of `src/goldboot/src/image.rs` (the GBF lineage) together with the
qcow2-reader interface it consumes.

Modelling conventions:
* Machine bytes are `Nat` (values < 256 where it matters); byte strings are
  `List Nat`.
* SHA-256 is idealized as an injective digest function (the digest is the
  hashed bytes themselves); all properties proved depend on the hash only
  through collision-freeness.
* AES-256-GCM and Zstd act on a symbolic byte-string type `Bytes` recording
  the transformations applied; authenticated decryption succeeds exactly on
  a ciphertext made with the same key and nonce, and otherwise reports an
  authentication failure, which is the guarantee the AEAD provides.
* File regions that the code reaches by seeking to a recorded offset and
  reading a recorded number of bytes are modelled as named fields of
  `GbImage`; offsets remain in the data where the code computes them, and
  offset arithmetic inside the cluster area (which `write` actually uses for
  lookups) is kept exactly.
* Rust panics (`todo!()`, out-of-bounds slicing and indexing) are modelled as
  the distinguished error `ImgError.Panic`.
-/

namespace Goldboot

/-- Byte strings: the contents of buffers, keys, nonces and digests. -/
abbrev ByteStr := List Nat

/-- Error kinds surfaced by the image code (spec section 7). `Panic` models a
Rust panic, which is not an ordinary `Err` return. -/
inductive ImgError
  | AuthenticationFailed
  | Corrupt
  | NotLoaded
  | IoError
  | QcowRead
  | Panic
deriving DecidableEq

instance instDecEqExcept {e a : Type} [DecidableEq e] [DecidableEq a] :
    DecidableEq (Except e a) := fun x y =>
  match x, y with
  | .ok u, .ok v =>
    if h : u = v then isTrue (by rw [h]) else isFalse (fun hc => h (Except.ok.inj hc))
  | .error u, .error v =>
    if h : u = v then isTrue (by rw [h]) else isFalse (fun hc => h (Except.error.inj hc))
  | .ok _, .error _ => isFalse (fun hc => Except.noConfusion hc)
  | .error _, .ok _ => isFalse (fun hc => Except.noConfusion hc)

/-- Symbolic byte strings: raw octets, a Zstd frame, or an AES-256-GCM
ciphertext. The constructors record exactly which transformations produced
the bytes, which is what the correctness arguments need. -/
inductive Bytes
  | raw (data : ByteStr)
  | zstd (inner : Bytes)
  | aes (key nonce : ByteStr) (inner : Bytes)
deriving DecidableEq

/-- Byte length of a symbolic byte string. A Zstd frame and a GCM ciphertext
have definite sizes on disk; the exact compressed size is not observable by
any property proved here, so it is stipulated (GCM genuinely adds a 16-byte
tag). -/
def Bytes.length : Bytes → Nat
  | .raw d => d.length
  | .zstd b => b.length + 1
  | .aes _ _ b => b.length + 16

/-- The `zstd::encode_all` call. -/
def zstd_encode (b : Bytes) : Bytes := .zstd b

/-- The `zstd::decode_all` call: only a Zstd frame decodes. -/
def zstd_decode : Bytes → Except ImgError Bytes
  | .zstd b => .ok b
  | _ => .error .Corrupt

/-- The `cipher.encrypt` call of AES-256-GCM. -/
def aes_encrypt (key nonce : ByteStr) (b : Bytes) : Bytes := .aes key nonce b

/-- The `cipher.decrypt` call of AES-256-GCM: authentication succeeds exactly
for a ciphertext produced under the same key and nonce; anything else is a
tag mismatch. -/
def aes_decrypt (key nonce : ByteStr) : Bytes → Except ImgError Bytes
  | .aes k n b =>
    if k = key ∧ n = nonce then .ok b else .error .AuthenticationFailed
  | _ => .error .AuthenticationFailed

/-- SHA-256 idealized as an injective digest: the digest is identified with
the hashed bytes. Every property proved below uses the hash only through
"equal digests iff equal inputs". -/
def sha256 (data : ByteStr) : ByteStr := data

/-- The bytes of a password string fed to the key derivation. The encoding is
idealized as the (injective) code-point sequence; composed with the idealized
hash, only its injectivity is observable. -/
def strBytes (s : String) : ByteStr := s.data.map Char.toNat

/-- UTF-8 bytes of a string, as Rust's `str::as_bytes` produces them; used
where the byte length is material (the 64-byte name field). -/
def utf8Bytes (s : String) : ByteStr :=
  (s.data.map String.utf8EncodeChar).flatten.map UInt8.toNat

/-- The `new_key` function: the header key is SHA-256 of the password bytes. -/
def new_key (password : String) : ByteStr := sha256 (strBytes password)

/-- The cluster compression algorithm (`ClusterCompressionType`). -/
inductive ClusterCompressionType
  | None
  | Zstd
deriving DecidableEq

/-- The cluster encryption algorithm (`ClusterEncryptionType`). -/
inductive ClusterEncryptionType
  | None
  | Aes256
deriving DecidableEq

/-- The header encryption algorithm (`HeaderEncryptionType`). -/
inductive HeaderEncryptionType
  | None
  | Aes256
deriving DecidableEq

/-- The always-plaintext primary header (`PrimaryHeader`). -/
structure PrimaryHeader where
  version : Nat
  size : Nat
  timestamp : Nat
  encryption_type : HeaderEncryptionType
  name : ByteStr
  directory_nonce : ByteStr
  directory_offset : Nat
  directory_size : Nat
deriving DecidableEq

/-- The possibly-encrypted protected header (`ProtectedHeader`). -/
structure ProtectedHeader where
  block_size : Nat
  cluster_count : Nat
  cluster_compression : ClusterCompressionType
  cluster_encryption : ClusterEncryptionType
  nonce_count : Nat
  nonce_table : List ByteStr
  cluster_key : ByteStr
deriving DecidableEq

/-- The section directory (`Directory`). -/
structure Directory where
  protected_nonce : ByteStr
  protected_size : Nat
  config_nonce : ByteStr
  config_offset : Nat
  config_size : Nat
  digest_table_nonce : ByteStr
  digest_table_offset : Nat
  digest_table_size : Nat
deriving DecidableEq

/-- One digest-table entry (`DigestTableEntry`). -/
structure DigestTableEntry where
  cluster_offset : Nat
  block_offset : Nat
  digest : ByteStr
deriving DecidableEq

/-- The digest table (`DigestTable`). -/
structure DigestTable where
  digest_count : Nat
  digest_table : List DigestTableEntry
deriving DecidableEq

/-- A data cluster record (`Cluster`): its on-disk size and its (possibly
compressed and encrypted) data. -/
structure Cluster where
  size : Nat
  data : Bytes
deriving DecidableEq

/-- Modelled from the spec: the build manifest (spec section 6; the Rust
`BuildConfig` lives in `build.rs`, outside the provided sources). Fields:
`name` (string), `description`, `arch`, `memory`, `nvme`, `password`,
`templates` (opaque to the core). -/
structure BuildConfig where
  name : String
  description : Option String
  arch : String
  memory : Option String
  nvme : Option Bool
  password : Option String
  templates : List String
deriving DecidableEq

/-- A file region as stored on disk: plaintext bytes of a serialized value,
or an AES-256-GCM ciphertext of them under a key and nonce. Serialization of
the structured value is the identity abstraction. -/
inductive Region (α : Type)
  | plain (value : α)
  | enc (key nonce : ByteStr) (value : α)
deriving DecidableEq

/-- A goldboot image file, region by region, in layout order
`[PrimaryHeader | ProtectedHeader | Config | Clusters | DigestTable |
Directory]`. The cluster area is keyed by the absolute byte offset of each
cluster record, exactly as `convert` computes it and `write` seeks to it. -/
structure GbImage where
  primary_header : PrimaryHeader
  protected_region : Region ProtectedHeader
  config_region : Region BuildConfig
  clusters : List (Nat × Cluster)
  digest_region : Region DigestTable
  directory_region : Region Directory
deriving DecidableEq

/-- The in-memory image handle (`ImageHandle`). The `path` field is replaced
by passing the file's contents (`GbImage`) explicitly to the operations. -/
structure ImageHandle where
  primary_header : PrimaryHeader
  protected_header : Option ProtectedHeader
  config : Option BuildConfig
  digest_table : Option DigestTable
  directory : Option Directory
  id : String
  file_size : Nat
deriving DecidableEq

/-- Modelled from the spec: one qcow2 L2 entry (spec section 4.3). `is_used`
is the "used" bit; `contents` is what `read_contents` would produce for a
full cluster (`none` models a malformed read, surfacing as a qcow read
error). -/
structure QcowL2Entry where
  is_used : Bool
  contents : Option ByteStr
deriving DecidableEq

/-- Modelled from the spec: one qcow2 L1 entry; `l2_table` is `read_l2`'s
result (`none` for a null L1 entry). -/
structure QcowL1Entry where
  l2_table : Option (List QcowL2Entry)
deriving DecidableEq

/-- Modelled from the spec: the qcow2 reader's view of a source image (spec
section 4.3): cluster size `1 <<< cluster_bits`, entries per L2 table, total
disk size, and the L1 table. -/
structure Qcow3 where
  cluster_size : Nat
  l2_entries_per_cluster : Nat
  size : Nat
  l1_table : List QcowL1Entry
deriving DecidableEq

/-- Modelled from the spec: `Qcow3::count_clusters` counts populated clusters
without reading cluster bodies (spec section 4.4 step 1). -/
def count_clusters (q : Qcow3) : Nat :=
  (q.l1_table.map (fun l1 =>
    match l1.l2_table with
    | some es => es.countP (fun e => e.is_used)
    | none => 0)).sum

/-- Random material drawn from the CSPRNG during one `convert` run, made an
explicit input so the embedding is a function. `cluster_nonce i` is the i-th
value `rng.gen::<[u8; 12]>()` would produce for the cluster nonce table. -/
structure RandomMaterial where
  directory_nonce : ByteStr
  protected_nonce : ByteStr
  config_nonce : ByteStr
  digest_table_nonce : ByteStr
  cluster_key : ByteStr
  cluster_nonce : Nat → ByteStr

/-- Serialized byte length of the primary header: 4 magic + 1 version +
8 size + 8 timestamp + 1 encryption type + 64 name + 12 nonce + 8 offset +
4 size. -/
def primaryHeaderLen : Nat := 110

/-- Extra bytes a region gains when it is AES-256-GCM encrypted (the tag). -/
def encOverhead : HeaderEncryptionType → Nat
  | .None => 0
  | .Aes256 => 16

/-- Serialized byte length of the protected header: 4 + 4 + 1 + 1 + 4 +
12 per nonce + 32. -/
def protectedHeaderLen (ph : ProtectedHeader) : Nat := 46 + 12 * ph.nonce_count

/-- Serialized byte length of the digest table: 4 + 48 per entry (8 + 8 + 32,
counting the digest at its real 32-byte width). -/
def digestTableLen (dt : DigestTable) : Nat := 4 + 48 * dt.digest_count

/-- Serialized byte length of the directory: 12 + 4 + 12 + 8 + 4 + 12 + 8 +
4. -/
def directoryLen : Nat := 64

/-- Wrap a serialized section for storage, mirroring the
`match primary_header.encryption_type` blocks of `convert`: plaintext when
header encryption is off, AEAD ciphertext under the header key otherwise. -/
def mkRegion {α : Type} (enc : HeaderEncryptionType) (key nonce : ByteStr) (v : α) : Region α :=
  match enc with
  | .None => .plain v
  | .Aes256 => .enc key nonce v

/-- Read a section that is stored in plaintext (`file.read_be`): finding a
ciphertext there means the bytes cannot parse. -/
def readPlain {α : Type} : Region α → Except ImgError α
  | .plain v => .ok v
  | .enc _ _ _ => .error .Corrupt

/-- Decrypt-and-parse a section (`cipher.decrypt` followed by `read_be`):
GCM authentication fails unless key and nonce both match, and plaintext
bytes fail the tag check as well. -/
def decryptRegion {α : Type} (key nonce : ByteStr) : Region α → Except ImgError α
  | .enc k n v => if k = key ∧ n = nonce then .ok v else .error .AuthenticationFailed
  | .plain _ => .error .AuthenticationFailed

/-- One section load, mirroring the `match self.primary_header.encryption_type`
blocks of `load`. -/
def loadRegion {α : Type} (enc : HeaderEncryptionType) (key nonce : ByteStr)
    (r : Region α) : Except ImgError α :=
  match enc with
  | .None => readPlain r
  | .Aes256 => decryptRegion key nonce r

/-- Mutable state of `convert`'s cluster-writing loop: the running block
offset in the logical data, the cluster ordinal, the write position in the
image file, and the accumulated digest entries and cluster records. -/
@[ext]
structure ConvState where
  block_offset : Nat
  cluster_count : Nat
  cluster_offset : Nat
  digests : List DigestTableEntry
  clusters : List (Nat × Cluster)
deriving DecidableEq

/-- Body of the `if l2_entry.is_used` branch of `convert`'s loop: read the
block, push its digest entry, compress, encrypt (`nonce_table[cluster_count]`
panics if absent), write the cluster, advance `cluster_offset` by
`4 + size` and the ordinal by one. -/
def convStepUsed (ph : ProtectedHeader) (st : ConvState) (e : QcowL2Entry) :
    Except ImgError ConvState := do
  let data ← match e.contents with
    | some d => pure d
    | none => throw ImgError.QcowRead
  let digest := sha256 data
  let entry : DigestTableEntry :=
    { digest := digest, block_offset := st.block_offset, cluster_offset := st.cluster_offset }
  let body := match ph.cluster_compression with
    | .None => Bytes.raw data
    | .Zstd => zstd_encode (Bytes.raw data)
  let body ← match ph.cluster_encryption with
    | .None => pure body
    | .Aes256 =>
      match ph.nonce_table[st.cluster_count]? with
      | some n => pure (aes_encrypt ph.cluster_key n body)
      | none => throw ImgError.Panic
  let cluster : Cluster := { size := body.length, data := body }
  pure { st with
    digests := st.digests ++ [entry]
    clusters := st.clusters ++ [(st.cluster_offset, cluster)]
    cluster_offset := st.cluster_offset + 4 + cluster.size
    cluster_count := st.cluster_count + 1 }

/-- One L2 entry of `convert`'s loop: process the used entry, then advance
`block_offset` by one cluster regardless. -/
def convStepL2 (ph : ProtectedHeader) (cluster_size : Nat) (st : ConvState)
    (e : QcowL2Entry) : Except ImgError ConvState := do
  let st ← if e.is_used then convStepUsed ph st e else pure st
  pure { st with block_offset := st.block_offset + cluster_size }

/-- One L1 entry of `convert`'s loop: walk the L2 table if present, else skip
a whole L2 region of the logical data. -/
def convStepL1 (ph : ProtectedHeader) (cluster_size l2_entries : Nat) (st : ConvState)
    (l1 : QcowL1Entry) : Except ImgError ConvState :=
  match l1.l2_table with
  | some es => es.foldlM (convStepL2 ph cluster_size) st
  | none => pure { st with block_offset := st.block_offset + cluster_size * l2_entries }

/-- Hex digit characters, lowercase as `hex::encode` emits them: code point
48 + n for the digits, 87 + n (so 97 to 102) for the letters. -/
def hexDigit (n : Nat) : Char :=
  if n < 10 then Char.ofNat (48 + n) else if n < 16 then Char.ofNat (87 + n) else '0'

/-- Hex encoding of a byte string (`hex::encode`). -/
def hexEncode (bs : ByteStr) : String :=
  String.mk ((bs.map (fun b => [hexDigit (b / 16 % 16), hexDigit (b % 16)])).flatten)

/-- Structural flattening of the image file used as input to the idealized
file hash; the byte-exact binrw layout is abstracted, only that the flattening
determines the file is used. -/
def encByteStr (bs : ByteStr) : ByteStr := bs.length :: bs

def encBytes : Bytes → ByteStr
  | .raw d => 0 :: encByteStr d
  | .zstd b => 1 :: encBytes b
  | .aes k n b => 2 :: (encByteStr k ++ encByteStr n ++ encBytes b)

def encRegion {α : Type} (f : α → ByteStr) : Region α → ByteStr
  | .plain v => 0 :: f v
  | .enc k n v => 1 :: (encByteStr k ++ encByteStr n ++ f v)

def encEncType : HeaderEncryptionType → Nat
  | .None => 0
  | .Aes256 => 1

def encPrimary (p : PrimaryHeader) : ByteStr :=
  [p.version, p.size, p.timestamp, encEncType p.encryption_type] ++ encByteStr p.name ++
    encByteStr p.directory_nonce ++ [p.directory_offset, p.directory_size]

def encProtected (ph : ProtectedHeader) : ByteStr :=
  [ph.block_size, ph.cluster_count,
   (match ph.cluster_compression with | .None => 0 | .Zstd => 1),
   (match ph.cluster_encryption with | .None => 0 | .Aes256 => 1),
   ph.nonce_count] ++ (ph.nonce_table.map encByteStr).flatten ++ encByteStr ph.cluster_key

def encOptStr : Option String → ByteStr
  | none => [0]
  | some s => 1 :: encByteStr (strBytes s)

def encConfig (c : BuildConfig) : ByteStr :=
  encByteStr (strBytes c.name) ++ encOptStr c.description ++ encByteStr (strBytes c.arch) ++
    encOptStr c.memory ++
    (match c.nvme with | none => [0] | some false => [1, 0] | some true => [1, 1]) ++
    encOptStr c.password ++ (c.templates.map (fun t => encByteStr (strBytes t))).flatten

def encEntry (e : DigestTableEntry) : ByteStr :=
  [e.cluster_offset, e.block_offset] ++ encByteStr e.digest

def encDigestTable (dt : DigestTable) : ByteStr :=
  dt.digest_count :: (dt.digest_table.map encEntry).flatten

def encDirectory (d : Directory) : ByteStr :=
  encByteStr d.protected_nonce ++ [d.protected_size] ++ encByteStr d.config_nonce ++
    [d.config_offset, d.config_size] ++ encByteStr d.digest_table_nonce ++
    [d.digest_table_offset, d.digest_table_size]

def encodeImage (img : GbImage) : ByteStr :=
  encPrimary img.primary_header ++ encRegion encProtected img.protected_region ++
    encRegion encConfig img.config_region ++
    (img.clusters.map (fun c => c.1 :: c.2.size :: encBytes c.2.data)).flatten ++
    encRegion encDigestTable img.digest_region ++ encRegion encDirectory img.directory_region

/-- The `compute_id` function: hex SHA-256 over the entire file contents. -/
def compute_id (img : GbImage) : String := hexEncode (sha256 (encodeImage img))

/-- Whether a character matches the regex class `[A-Fa-f0-9]`. -/
def isHexChar (c : Char) : Bool :=
  ('0' ≤ c && c ≤ '9') || ('a' ≤ c && c ≤ 'f') || ('A' ≤ c && c ≤ 'F')

/-- Whether `Regex::new("[A-Fa-f0-9]{64}").is_match` holds of a string: an
unanchored search, so the string need only contain a run of 64 hex
characters. -/
def hasHexRun64 : List Char → Bool
  | [] => false
  | c :: rest =>
    (decide (64 ≤ (c :: rest).length) && ((c :: rest).take 64).all isHexChar) || hasHexRun64 rest

/-- The `ImageHandle::convert` function (lines 402-654): turn a qcow2 into a
goldboot image. `timestamp` stands for the clock reading and `config_end` for
the stream position right after the Config region is written (the byte size
of the JSON-encoded, possibly encrypted config is the one layout quantity the
embedding abstracts). Returns the file contents and the returned handle. -/
def convert (source : Qcow3) (config0 : BuildConfig) (rng : RandomMaterial)
    (timestamp config_end : Nat) : Except ImgError (GbImage × ImageHandle) := do
  -- Prepare cipher for the image header
  let header_key := new_key (config0.password.getD "")
  -- Prepare directory (offsets and sizes filled in while writing)
  let directory0 : Directory :=
    { protected_nonce := rng.protected_nonce, protected_size := 0
      config_nonce := rng.config_nonce, config_offset := 0, config_size := 0
      digest_table_nonce := rng.digest_table_nonce, digest_table_offset := 0
      digest_table_size := 0 }
  -- Prepare primary header; encryption is on iff a password was supplied
  let encryption_type : HeaderEncryptionType :=
    if config0.password.isSome then .Aes256 else .None
  let primary_header0 : PrimaryHeader :=
    { version := 1, size := source.size, timestamp := timestamp
      encryption_type := encryption_type, name := List.replicate 64 0
      directory_nonce := rng.directory_nonce, directory_offset := 0, directory_size := 0 }
  -- primary_header.name[0..config.name.len()].copy_from_slice(name bytes):
  -- slicing a 64-byte array with an upper bound beyond 64 panics
  if 64 < (utf8Bytes config0.name).length then throw ImgError.Panic
  let primary_header0 :=
    { primary_header0 with
        name := utf8Bytes config0.name ++
          List.replicate (64 - (utf8Bytes config0.name).length) 0 }
  -- Clear the password from the config before it is serialized. NOTE: the
  -- protected-header fields below test this cleared copy, as the source does.
  let config : BuildConfig := { config0 with password := none }
  -- Prepare protected header
  let protected_header : ProtectedHeader :=
    { block_size := source.cluster_size, cluster_count := count_clusters source
      cluster_compression := .Zstd
      cluster_encryption := if config.password.isSome then .Aes256 else .None
      cluster_key := rng.cluster_key, nonce_count := 0, nonce_table := [] }
  let protected_header :=
    if config.password.isSome then
      { protected_header with
          nonce_count := protected_header.cluster_count
          nonce_table :=
            (List.range protected_header.cluster_count).map rng.cluster_nonce }
    else protected_header
  -- Write protected header; record its written size into the directory
  let protected_size := protectedHeaderLen protected_header + encOverhead encryption_type
  let protected_region :=
    mkRegion encryption_type header_key rng.protected_nonce protected_header
  -- Write config; record offset and size
  let config_offset := primaryHeaderLen + protected_size
  let config_region := mkRegion encryption_type header_key rng.config_nonce config
  -- Read from the qcow2 and write the clusters, starting at the current
  -- stream position `config_end`
  let st0 : ConvState :=
    { block_offset := 0, cluster_count := 0, cluster_offset := config_end
      digests := [], clusters := [] }
  let st ← source.l1_table.foldlM
    (convStepL1 protected_header source.cluster_size source.l2_entries_per_cluster) st0
  -- Write the completed digest table
  let digest_table : DigestTable :=
    { digest_count := protected_header.cluster_count, digest_table := st.digests }
  let digest_table_offset := st.cluster_offset
  let digest_table_size := digestTableLen digest_table + encOverhead encryption_type
  let digest_region :=
    mkRegion encryption_type header_key rng.digest_table_nonce digest_table
  -- Write the completed directory
  let directory : Directory :=
    { directory0 with
        protected_size := protected_size, config_offset := config_offset
        config_size := config_end - config_offset
        digest_table_offset := digest_table_offset, digest_table_size := digest_table_size }
  let directory_offset := digest_table_offset + digest_table_size
  let directory_size := directoryLen + encOverhead encryption_type
  let directory_region :=
    mkRegion encryption_type header_key rng.directory_nonce directory
  -- Rewrite the completed primary header at offset 0
  let primary_header :=
    { primary_header0 with
        directory_offset := directory_offset, directory_size := directory_size }
  let img : GbImage :=
    { primary_header := primary_header, protected_region := protected_region
      config_region := config_region, clusters := st.clusters
      digest_region := digest_region, directory_region := directory_region }
  pure (img,
    { primary_header := primary_header, protected_header := some protected_header
      config := some config, digest_table := some digest_table
      directory := some directory, id := compute_id img
      file_size := directory_offset + directory_size })

/-- Outcome of `convert` together with whether a file is present at the
destination path afterwards. -/
structure ConvertFsResult where
  dest_file_exists : Bool
  result : Except ImgError (GbImage × ImageHandle)
deriving DecidableEq

/-- File-system effect of `ImageHandle::convert`: `File::create(&dest)` at
the top creates (or truncates) the destination, and no path through the
function removes it, so the file is present afterwards whether the function
returns a handle or an error. -/
def convertFs (source : Qcow3) (config0 : BuildConfig) (rng : RandomMaterial)
    (timestamp config_end : Nat) : ConvertFsResult :=
  { dest_file_exists := true, result := convert source config0 rng timestamp config_end }

/-- All metadata produced by a successful `ImageHandle::load`. -/
structure LoadedMeta where
  directory : Directory
  protected_header : ProtectedHeader
  config : BuildConfig
  digest_table : DigestTable
deriving DecidableEq

/-- The `ImageHandle::load` function (lines 248-327): decrypt and parse the
directory, the protected header, the config and the digest table using the
key derived from the (defaulted) password. -/
def load (img : GbImage) (password : Option String) : Except ImgError LoadedMeta := do
  let cipher := new_key (password.getD "")
  -- Load the directory first because other sections rely on it
  let directory ← loadRegion img.primary_header.encryption_type cipher
    img.primary_header.directory_nonce img.directory_region
  -- Load the protected header
  let protected_header ← loadRegion img.primary_header.encryption_type cipher
    directory.protected_nonce img.protected_region
  -- Load config
  let config ← loadRegion img.primary_header.encryption_type cipher
    directory.config_nonce img.config_region
  -- Load the digest table
  let digest_table ← loadRegion img.primary_header.encryption_type cipher
    directory.digest_table_nonce img.digest_region
  pure { directory := directory, protected_header := protected_header
         config := config, digest_table := digest_table }

/-- Effect of `load` on the handle: the four option fields are assigned only
after every section parsed, so a failing load leaves the handle exactly as it
was. -/
def loadUpdate (h : ImageHandle) (img : GbImage) (password : Option String) : ImageHandle :=
  match load img password with
  | .ok m =>
    { h with directory := some m.directory, protected_header := some m.protected_header
             digest_table := some m.digest_table, config := some m.config }
  | .error _ => h

/-- Handle-returning form of `load` used to chain operations. -/
def loadH (h : ImageHandle) (img : GbImage) (password : Option String) :
    Except ImgError ImageHandle :=
  (load img password).map fun m =>
    { h with directory := some m.directory, protected_header := some m.protected_header
             digest_table := some m.digest_table, config := some m.config }

/-- The `ImageHandle::open` function (lines 329-386): read the primary header
(binrw asserts `version == 1`), take the id from the file stem when it
matches the 64-hex regex and from `compute_id` otherwise, and for an
unencrypted image also read the protected header, the directory and the
config in plaintext. -/
def openHandle (stem : String) (img : GbImage) : Except ImgError ImageHandle := do
  let primary_header := img.primary_header
  if primary_header.version ≠ 1 then throw ImgError.Corrupt
  let id := if hasHexRun64 stem.data then stem else compute_id img
  let file_size := primary_header.directory_offset + primary_header.directory_size
  if primary_header.encryption_type = .None then do
    let protected_header ← readPlain img.protected_region
    let directory ← readPlain img.directory_region
    let config ← readPlain img.config_region
    pure { primary_header := primary_header, protected_header := some protected_header
           config := some config, digest_table := none, directory := some directory
           id := id, file_size := file_size }
  else
    pure { primary_header := primary_header, protected_header := none, config := none
           digest_table := none, directory := none, id := id, file_size := file_size }

/-- The `ImageHandle::change_password` function (lines 388-400): it builds
the new cipher and an RNG and then hits `todo!()`, which panics
unconditionally; no section is rewritten. -/
def change_password (_old_password _new_password : String) : Except ImgError Unit :=
  .error ImgError.Panic

/-- Extend a file to length `n` (`set_len`) when it is shorter, zero-filling
the tail. -/
def extendTo (d : ByteStr) (n : Nat) : ByteStr :=
  if d.length < n then d ++ List.replicate (n - d.length) 0 else d

/-- Read exactly `len` bytes at `off` (`seek` + `read_exact`); reading past
the end of the file is an I/O error. -/
def readExact (d : ByteStr) (off len : Nat) : Except ImgError ByteStr :=
  if off + len ≤ d.length then .ok ((d.drop off).take len) else .error .IoError

/-- Write bytes at `off` (`seek` + `write_all`), zero-filling any gap beyond
the current end of file. -/
def writeAt (d : ByteStr) (off : Nat) (w : ByteStr) : ByteStr :=
  d.take off ++ List.replicate (off - d.length) 0 ++ w ++ d.drop (off + w.length)

/-- Read the cluster record at an absolute offset of the image file
(`cluster_table.seek` + `read_be`); bytes at any other offset do not parse as
a cluster. -/
def lookupCluster (clusters : List (Nat × Cluster)) (off : Nat) : Except ImgError Cluster :=
  match clusters.find? (fun c => c.1 == off) with
  | some c => .ok c.2
  | none => .error .Corrupt

/-- The else-branch decoding of `ImageHandle::write`: reverse encryption
(indexing `nonce_table[i]` panics if absent), reverse compression, and
require plain octets to write. -/
def decodeClusterData (ph : ProtectedHeader) (i : Nat) (c : Cluster) :
    Except ImgError ByteStr := do
  let data ← match ph.cluster_encryption with
    | .None => pure c.data
    | .Aes256 =>
      match ph.nonce_table[i]? with
      | some n => aes_decrypt ph.cluster_key n c.data
      | none => throw ImgError.Panic
  let data ← match ph.cluster_compression with
    | .None => pure data
    | .Zstd => zstd_decode data
  match data with
  | .raw d => pure d
  | _ => throw ImgError.Corrupt

/-- One iteration of `ImageHandle::write`'s loop at index `i`: fetch the
digest entry (`digest_table[i]` panics if absent), read the target block,
hash it, skip when it matches the recorded digest, otherwise decode the
cluster and write it over the block. The second state component counts the
iterations that took the else branch (cluster bodies written); it instruments
the loop for the idempotence property and does not alter the computation. -/
def applyStep (ph : ProtectedHeader) (clusters : List (Nat × Cluster))
    (entries : List DigestTableEntry) (st : ByteStr × Nat) (i : Nat) :
    Except ImgError (ByteStr × Nat) := do
  let entry ← match entries[i]? with
    | some e => pure e
    | none => throw ImgError.Panic
  let block ← readExact st.1 entry.block_offset ph.block_size
  let hash := sha256 block
  if hash = entry.digest then
    pure st
  else do
    let cluster ← lookupCluster clusters entry.cluster_offset
    let data ← decodeClusterData ph i cluster
    pure (writeAt st.1 entry.block_offset data, st.2 + 1)

/-- The `ImageHandle::write` function (lines 659-739): require a loaded
handle, extend the target to the image's logical size when shorter, then walk
the digest table writing every cluster whose target block differs. -/
def write (h : ImageHandle) (img : GbImage) (dest0 : ByteStr) :
    Except ImgError (ByteStr × Nat) := do
  match h.protected_header, h.digest_table with
  | some protected_header, some digest_table =>
    let dest := extendTo dest0 h.primary_header.size
    (List.range protected_header.cluster_count).foldlM
      (applyStep protected_header img.clusters digest_table.digest_table) (dest, 0)
  | _, _ => throw ImgError.NotLoaded

/-- The composite `Apply(Load(Open(Capture(Q, cfg))), fresh target)` of the
round-trip property: capture, open the result under `stem`, load it with no
password, and apply it to an initially empty target file. -/
def captureApply (source : Qcow3) (config0 : BuildConfig) (rng : RandomMaterial)
    (timestamp config_end : Nat) (stem : String) : Except ImgError ByteStr := do
  let (img, _) ← convert source config0 rng timestamp config_end
  let hd ← openHandle stem img
  let hd ← loadH hd img none
  let (dest, _) ← write hd img []
  pure dest

/-- The populated blocks of an L2 table traversed from block offset `off`:
pairs of (block offset, plaintext contents), one per used entry, advancing
one cluster per entry. -/
def l2Blocks (cluster_size : Nat) : List QcowL2Entry → Nat → List (Nat × ByteStr)
  | [], _ => []
  | e :: rest, off =>
    if e.is_used then (off, e.contents.getD []) :: l2Blocks cluster_size rest (off + cluster_size)
    else l2Blocks cluster_size rest (off + cluster_size)

/-- The populated blocks of a whole L1 table traversed from block offset
`off`: a present L2 table contributes its blocks and advances one cluster per
L2 entry; a null L1 entry advances a whole L2 region. -/
def l1Blocks (cluster_size l2_entries : Nat) : List QcowL1Entry → Nat → List (Nat × ByteStr)
  | [], _ => []
  | l1 :: rest, off =>
    match l1.l2_table with
    | some es =>
      l2Blocks cluster_size es off ++
        l1Blocks cluster_size l2_entries rest (off + cluster_size * es.length)
    | none => l1Blocks cluster_size l2_entries rest (off + cluster_size * l2_entries)

/-- The populated blocks of a qcow2, in traversal order. -/
def populatedBlocks (q : Qcow3) : List (Nat × ByteStr) :=
  l1Blocks q.cluster_size q.l2_entries_per_cluster q.l1_table 0

/-- The plaintext disk a qcow2 represents: `size` zero bytes overwritten with
every populated block at its block offset (spec section 3 invariant 7: any
block offset not referenced is implicitly a zero block). -/
def qcowPlaintext (q : Qcow3) : ByteStr :=
  (populatedBlocks q).foldl (fun d b => writeAt d b.1 b.2) (List.replicate q.size 0)

/-- Well-formedness of a qcow2 as the reader presents it: a positive cluster
size, every used entry readable with exactly one cluster of contents, and
every populated block inside the declared disk size. -/
def qcow_wf (q : Qcow3) : Bool :=
  decide (0 < q.cluster_size) &&
  q.l1_table.all (fun l1 =>
    match l1.l2_table with
    | some es => es.all (fun e =>
        !e.is_used || (match e.contents with
          | some d => d.length == q.cluster_size
          | none => false))
    | none => true) &&
  (populatedBlocks q).all (fun b => decide (b.1 + q.cluster_size ≤ q.size))

/-- The cluster fetch and decode of `write`'s else branch, as one function:
read the cluster record at the entry's offset and reverse its encryption and
compression. -/
def decodeEntry (ph : ProtectedHeader) (clusters : List (Nat × Cluster))
    (i : Nat) (e : DigestTableEntry) : Except ImgError ByteStr :=
  match lookupCluster clusters e.cluster_offset with
  | .error err => .error err
  | .ok c => decodeClusterData ph i c

/-- The raw block `write`'s else branch would produce for digest-table index
`i` and entry `e`, when everything decodes; `[]` when it would fail. -/
def payloadOf (ph : ProtectedHeader) (clusters : List (Nat × Cluster))
    (i : Nat) (e : DigestTableEntry) : ByteStr :=
  match decodeEntry ph clusters i e with
  | .ok d => d
  | .error _ => []

/-- Whether digest-table index `i` with entry `e` is consistent: its cluster
is present and decodes to a full block whose hash is the recorded digest. -/
def entryOk (ph : ProtectedHeader) (clusters : List (Nat × Cluster))
    (ie : Nat × DigestTableEntry) : Bool :=
  match decodeEntry ph clusters ie.1 ie.2 with
  | .ok d => (d.length == ph.block_size) && (sha256 d == ie.2.digest)
  | .error _ => false

/-- Whether consecutive digest entries are ordered with non-overlapping
blocks: each block offset at least one block past the previous one. -/
def orderedEntries (block_size : Nat) : List DigestTableEntry → Bool
  | [] => true
  | [_] => true
  | a :: b :: rest =>
    decide (a.block_offset + block_size ≤ b.block_offset) &&
      orderedEntries block_size (b :: rest)

/-- Consistency of loaded apply inputs: the digest table covers exactly
`cluster_count` entries, blocks are positive-sized, ordered and within the
logical size, and every entry decodes to a block matching its digest. This
holds of every handle loaded from a capture-produced file. -/
def applyWF (ph : ProtectedHeader) (entries : List DigestTableEntry)
    (clusters : List (Nat × Cluster)) (size : Nat) : Bool :=
  (entries.length == ph.cluster_count) &&
  decide (0 < ph.block_size) &&
  orderedEntries ph.block_size entries &&
  entries.all (fun e => decide (e.block_offset + ph.block_size ≤ size)) &&
  entries.enum.all (entryOk ph clusters)

/-- `applyWF` lifted to a handle and the image file it was loaded from. -/
def handleWF (h : ImageHandle) (img : GbImage) : Bool :=
  match h.protected_header, h.digest_table with
  | some ph, some dt => applyWF ph dt.digest_table img.clusters h.primary_header.size
  | _, _ => false

/-- Totalized postcondition check: `p` holds of the success value, vacuously
true on an error. -/
def exceptProp {e a : Type} (r : Except e a) (p : a → Bool) : Bool :=
  match r with
  | .ok v => p v
  | .error _ => true

/-- The loop body of `write` with its digest-table entry already fetched and
the else-branch fetch-and-decode folded into `decodeEntry`; proved equal to
`applyStep` below. -/
def applyStepK (ph : ProtectedHeader) (clusters : List (Nat × Cluster))
    (st : ByteStr × Nat) (ie : Nat × DigestTableEntry) :
    Except ImgError (ByteStr × Nat) :=
  match readExact st.1 ie.2.block_offset ph.block_size with
  | .error e => .error e
  | .ok block =>
    if sha256 block = ie.2.digest then .ok st
    else
      match decodeEntry ph clusters ie.1 ie.2 with
      | .error e => .error e
      | .ok data => .ok (writeAt st.1 ie.2.block_offset data, st.2 + 1)

/-- The loop of `write` as structural recursion over the enumerated digest
table; proved equal to the indexed `foldlM` that `write` runs. -/
def applyGo (ph : ProtectedHeader) (clusters : List (Nat × Cluster)) :
    List (Nat × DigestTableEntry) → (ByteStr × Nat) → Except ImgError (ByteStr × Nat)
  | [], st => .ok st
  | ie :: rest, st =>
    match applyStepK ph clusters st ie with
    | .error e => .error e
    | .ok st2 => applyGo ph clusters rest st2

/-- The blocks the apply loop deposits: each enumerated entry overwrites its
block with the entry's decoded payload. -/
def applyFold (ph : ProtectedHeader) (clusters : List (Nat × Cluster))
    (d : ByteStr) (ies : List (Nat × DigestTableEntry)) : ByteStr :=
  ies.foldl (fun d ie => writeAt d ie.2.block_offset (payloadOf ph clusters ie.1 ie.2)) d

/-- Whether the qcow2 reader can deliver every populated cluster body. -/
def readableQ (q : Qcow3) : Bool :=
  q.l1_table.all (fun l1 =>
    match l1.l2_table with
    | some es => es.all (fun e => !e.is_used || e.contents.isSome)
    | none => true)

/-- The stored form of one cluster body as `convert` produces it: always
Zstd-compressed, and never encrypted, because `convert` tests the cleared
config's password when choosing `cluster_encryption`. -/
def specBody (d : ByteStr) : Bytes := Bytes.zstd (Bytes.raw d)

/-- The digest entry and cluster record `convert` emits for each populated
block, with cluster offsets advancing by `4 + size` from `coff`. -/
def specPairs (coff : Nat) : List (Nat × ByteStr) → List (DigestTableEntry × (Nat × Cluster))
  | [] => []
  | b :: rest =>
    ({ cluster_offset := coff, block_offset := b.1, digest := sha256 b.2 },
      (coff, { size := (specBody b.2).length, data := specBody b.2 })) ::
      specPairs (coff + 4 + (specBody b.2).length) rest

/-- The stream position after `convert` writes the clusters of the given
blocks starting at `coff`. -/
def specEnd (coff : Nat) : List (Nat × ByteStr) → Nat
  | [] => coff
  | b :: rest => specEnd (coff + 4 + (specBody b.2).length) rest

/-- Logical bytes the cluster loop advances past for an L1 table. -/
def l1Advance (cs l2n : Nat) : List QcowL1Entry → Nat
  | [] => 0
  | l1 :: rest =>
    (match l1.l2_table with
      | some es => cs * es.length
      | none => cs * l2n) + l1Advance cs l2n rest

/-- The protected header `convert` builds: because the config's password is
cleared before `cluster_encryption` and the nonce-table block are computed,
cluster encryption is off and the nonce table stays empty for every input. -/
def convertPH (source : Qcow3) (rng : RandomMaterial) : ProtectedHeader :=
  { block_size := source.cluster_size, cluster_count := count_clusters source
    cluster_compression := .Zstd, cluster_encryption := .None
    cluster_key := rng.cluster_key, nonce_count := 0, nonce_table := [] }

/-- The image and handle `convert` assembles from the final loop state. -/
def convertGbResult (source : Qcow3) (cfg : BuildConfig) (rng : RandomMaterial)
    (ts ce : Nat) (st : ConvState) : GbImage × ImageHandle :=
  let header_key := new_key (cfg.password.getD "")
  let enc_type := if cfg.password.isSome then HeaderEncryptionType.Aes256 else .None
  let ph := convertPH source rng
  let protected_size := protectedHeaderLen ph + encOverhead enc_type
  let config_offset := primaryHeaderLen + protected_size
  let configC := { cfg with password := none }
  let digest_table : DigestTable := ⟨ph.cluster_count, st.digests⟩
  let digest_table_offset := st.cluster_offset
  let digest_table_size := digestTableLen digest_table + encOverhead enc_type
  let directory : Directory :=
    ⟨rng.protected_nonce, protected_size, rng.config_nonce, config_offset,
      ce - config_offset, rng.digest_table_nonce, digest_table_offset, digest_table_size⟩
  let directory_offset := digest_table_offset + digest_table_size
  let directory_size := directoryLen + encOverhead enc_type
  let primary : PrimaryHeader :=
    ⟨1, source.size, ts, enc_type,
      utf8Bytes cfg.name ++ List.replicate (64 - (utf8Bytes cfg.name).length) 0,
      rng.directory_nonce, directory_offset, directory_size⟩
  let img : GbImage :=
    ⟨primary, mkRegion enc_type header_key rng.protected_nonce ph,
      mkRegion enc_type header_key rng.config_nonce configC, st.clusters,
      mkRegion enc_type header_key rng.digest_table_nonce digest_table,
      mkRegion enc_type header_key rng.directory_nonce directory⟩
  (img, ⟨primary, some ph, some configC, some digest_table, some directory,
    compute_id img, directory_offset + directory_size⟩)

/-- The value stored in a region, whichever way it is wrapped. -/
def regionValue {α : Type} : Region α → α
  | .plain v => v
  | .enc _ _ v => v

/-! Concrete instances for the executable checks. -/

/-- A small well-formed qcow2: cluster size 2, logical size 8, one populated
block `[7, 7]` at offset 0. -/
def q1 : Qcow3 :=
  { cluster_size := 2, l2_entries_per_cluster := 2, size := 8
    l1_table := [⟨some [⟨true, some [7, 7]⟩, ⟨false, none⟩]⟩, ⟨none⟩] }

/-- Fixed random material for the concrete runs. -/
def rng1 : RandomMaterial :=
  { directory_nonce := [1], protected_nonce := [2], config_nonce := [3]
    digest_table_nonce := [4], cluster_key := [9], cluster_nonce := fun _ => [] }

/-- A manifest without a password. -/
def cfgNone : BuildConfig :=
  { name := "t", description := none, arch := "amd64", memory := none, nvme := none
    password := none, templates := [] }

/-- The same manifest with password "1234". -/
def cfg1234 : BuildConfig := { cfgNone with password := some "1234" }

/-- The same manifest with the empty-string password. -/
def cfgEmpty : BuildConfig := { cfgNone with password := some "" }

/-- A qcow2 whose single used entry fails to read. -/
def qUnread : Qcow3 :=
  { cluster_size := 2, l2_entries_per_cluster := 1, size := 2
    l1_table := [⟨some [⟨true, none⟩]⟩] }

/-- A file stem that is a run of 64 hex characters. -/
def stem64 : String := "aaaaaaaaaaaaaaaaaaaaaaaaaaaaaaaaaaaaaaaaaaaaaaaaaaaaaaaaaaaaaaaa"

/-- A protected header for the hand-built images below: Zstd compression, no
cluster encryption, one cluster of block size 2. -/
def ph2 : ProtectedHeader :=
  { block_size := 2, cluster_count := 1, cluster_compression := .Zstd
    cluster_encryption := .None, nonce_count := 0, nonce_table := [], cluster_key := [] }

/-- A primary header for the hand-built images below (logical size 4). -/
def phdr4 : PrimaryHeader :=
  { version := 1, size := 4, timestamp := 0, encryption_type := .None
    name := List.replicate 64 0, directory_nonce := [], directory_offset := 0
    directory_size := 0 }

/-- One stored cluster holding the block `[7, 7]`. -/
def clu77 : Cluster := { size := (specBody [7, 7]).length, data := specBody [7, 7] }

/-- An empty directory for the hand-built images. -/
def dir0 : Directory := ⟨[], 0, [], 0, 0, [], 0, 0⟩

/-- An image whose digest entry records `[9, 9]` although its cluster decodes
to the block `[7, 7]`: a digest table inconsistent with the cluster area. -/
def imgBad : GbImage :=
  { primary_header := phdr4, protected_region := .plain ph2
    config_region := .plain cfgNone, clusters := [(200, clu77)]
    digest_region := .plain ⟨1, [⟨200, 0, [9, 9]⟩]⟩
    directory_region := .plain dir0 }

/-- A loaded handle over `imgBad`. -/
def hBad : ImageHandle :=
  { primary_header := phdr4, protected_header := some ph2, config := some cfgNone
    digest_table := some ⟨1, [⟨200, 0, [9, 9]⟩]⟩, directory := some dir0
    id := "", file_size := 0 }

/-- The same image with the digest entry recording the block's true digest. -/
def imgGood : GbImage :=
  { imgBad with digest_region := .plain ⟨1, [⟨200, 0, [7, 7]⟩]⟩ }

/-- A consistent loaded handle over `imgGood`. -/
def hGood : ImageHandle :=
  { hBad with digest_table := some ⟨1, [⟨200, 0, [7, 7]⟩]⟩ }

/-! Byte-level lemmas about `writeAt`, `readExact` and `extendTo`. -/

theorem exBind_ok {e a b : Type} (x : a) (f : a → Except e b) :
    (Except.ok x >>= f) = f x := rfl

theorem exBind_error {e a b : Type} (err : e) (f : a → Except e b) :
    ((Except.error err : Except e a) >>= f) = .error err := rfl

theorem exMap_ok {e a b : Type} (f : a → b) (x : a) :
    (f <$> (Except.ok x : Except e a)) = .ok (f x) := rfl

theorem exMap_error {e a b : Type} (f : a → b) (err : e) :
    (f <$> (Except.error err : Except e a)) = .error err := rfl

theorem exPure {e a : Type} (x : a) : (pure x : Except e a) = .ok x := rfl

theorem exThrow {e a : Type} (err : e) : (throw err : Except e a) = .error err := rfl

theorem length_writeAt {d w : ByteStr} {off : Nat} (h : off + w.length ≤ d.length) :
    (writeAt d off w).length = d.length := by
  unfold writeAt
  simp only [List.length_append, List.length_take, List.length_replicate, List.length_drop]
  omega

theorem getElem?_writeAt {d w : ByteStr} {off : Nat} (h : off + w.length ≤ d.length) (j : Nat) :
    (writeAt d off w)[j]? =
      if off ≤ j ∧ j < off + w.length then w[j - off]? else d[j]? := by
  have hoff : off ≤ d.length := by omega
  unfold writeAt
  rw [Nat.sub_eq_zero_of_le hoff]
  simp only [List.replicate_zero, List.append_nil, List.nil_append]
  have htl : (d.take off).length = off := by
    rw [List.length_take]; omega
  rw [List.append_assoc, List.getElem?_append, htl]
  by_cases hj : j < off
  · rw [if_pos hj, List.getElem?_take, if_pos hj, if_neg (by omega)]
  · rw [if_neg hj, List.getElem?_append]
    by_cases hj2 : j - off < w.length
    · rw [if_pos hj2, if_pos (by omega)]
    · rw [if_neg hj2, List.getElem?_drop, if_neg (by omega)]
      congr 1
      omega

theorem getElem?_slice (d : ByteStr) (off len k : Nat) :
    ((d.drop off).take len)[k]? = if k < len then d[off + k]? else none := by
  rw [List.getElem?_take]
  by_cases hk : k < len
  · rw [if_pos hk, if_pos hk, List.getElem?_drop]
  · rw [if_neg hk, if_neg hk]

theorem readExact_eq_ok {d : ByteStr} {off len : Nat} (h : off + len ≤ d.length) :
    readExact d off len = .ok ((d.drop off).take len) := by
  unfold readExact
  rw [if_pos h]

theorem readExact_congr {d1 d2 : ByteStr} {off len : Nat} (hl : d1.length = d2.length)
    (hpt : ∀ k, k < len → d1[off + k]? = d2[off + k]?) :
    readExact d1 off len = readExact d2 off len := by
  unfold readExact
  rw [hl]
  by_cases hb : off + len ≤ d2.length
  · rw [if_pos hb, if_pos hb]
    congr 1
    apply List.ext_getElem?
    intro k
    rw [getElem?_slice, getElem?_slice]
    by_cases hk : k < len
    · rw [if_pos hk, if_pos hk, hpt k hk]
    · rw [if_neg hk, if_neg hk]
  · rw [if_neg hb, if_neg hb]

theorem readExact_writeAt_self {d w : ByteStr} {off : Nat} (h : off + w.length ≤ d.length) :
    readExact (writeAt d off w) off w.length = .ok w := by
  rw [readExact_eq_ok (by rw [length_writeAt h]; exact h)]
  congr 1
  apply List.ext_getElem?
  intro k
  rw [getElem?_slice]
  by_cases hk : k < w.length
  · rw [if_pos hk, getElem?_writeAt h, if_pos (by omega)]
    congr 1
    omega
  · rw [if_neg hk, eq_comm, List.getElem?_eq_none_iff]
    omega

theorem readExact_writeAt_below {d w : ByteStr} {off2 off len : Nat}
    (h1 : off2 + w.length ≤ off) (h2 : off + len ≤ d.length) :
    readExact (writeAt d off2 w) off len = readExact d off len := by
  apply readExact_congr (length_writeAt (by omega))
  intro k _
  rw [getElem?_writeAt (by omega), if_neg (by omega)]

theorem readExact_writeAt_above {d w : ByteStr} {off2 off len : Nat}
    (h1 : off + len ≤ off2) (h2 : off2 + w.length ≤ d.length) :
    readExact (writeAt d off2 w) off len = readExact d off len := by
  apply readExact_congr (length_writeAt h2)
  intro k hk
  rw [getElem?_writeAt h2, if_neg (by omega)]

theorem writeAt_slice_self {d w : ByteStr} {off : Nat} (h1 : off + w.length ≤ d.length)
    (h2 : (d.drop off).take w.length = w) : writeAt d off w = d := by
  apply List.ext_getElem?
  intro j
  rw [getElem?_writeAt h1]
  by_cases hj : off ≤ j ∧ j < off + w.length
  · rw [if_pos hj]
    rw [← h2, getElem?_slice, if_pos (by omega)]
    congr 1
    omega
  · rw [if_neg hj]

theorem length_extendTo (d : ByteStr) (n : Nat) :
    (extendTo d n).length = max d.length n := by
  unfold extendTo
  by_cases h : d.length < n
  · rw [if_pos h]
    simp only [List.length_append, List.length_replicate]
    omega
  · rw [if_neg h]
    omega

theorem extendTo_of_le {d : ByteStr} {n : Nat} (h : n ≤ d.length) : extendTo d n = d := by
  unfold extendTo
  rw [if_neg (by omega)]

theorem extendTo_nil (n : Nat) : extendTo [] n = List.replicate n 0 := by
  unfold extendTo
  cases n with
  | zero => simp
  | succ m => simp

/-! Characterization of the apply loop: the bridge lemmas relate `applyGo`
to the indexed `foldlM` that `write` runs, and the run and skip lemmas
characterize its result. -/

theorem applyStep_eq_applyStepK {ph : ProtectedHeader} {clusters : List (Nat × Cluster)}
    {entries : List DigestTableEntry} {i : Nat} {e : DigestTableEntry}
    (h : entries[i]? = some e) (st : ByteStr × Nat) :
    applyStep ph clusters entries st i = applyStepK ph clusters st (i, e) := by
  unfold applyStep applyStepK decodeEntry
  rw [h]
  cases hr : readExact st.1 e.block_offset ph.block_size with
  | error err => simp [hr, exBind_error]
  | ok block =>
    simp only [hr, exBind_ok, exPure]
    by_cases hd : sha256 block = e.digest
    · simp [hd, exPure]
    · simp only [if_neg hd]
      cases hlk : lookupCluster clusters e.cluster_offset with
      | error err => simp [hlk, hd, exBind_error]
      | ok c =>
        simp only [hlk, hd, exBind_ok, if_false]
        cases hdec : decodeClusterData ph i c with
        | error err => simp [hdec, exMap_error, exBind_error]
        | ok data => simp [hdec, exMap_ok, exBind_ok, exPure]

theorem foldlM_range'_eq_applyGo (ph : ProtectedHeader) (clusters : List (Nat × Cluster))
    (entries : List DigestTableEntry) :
    ∀ (n k : Nat) (st : ByteStr × Nat), n = entries.length - k →
      (List.range' k n).foldlM (applyStep ph clusters entries) st =
        applyGo ph clusters ((entries.drop k).enumFrom k) st := by
  intro n
  induction n with
  | zero =>
    intro k st hk
    have hdrop : entries.drop k = [] := by
      apply List.drop_eq_nil_of_le
      omega
    rw [hdrop]
    rfl
  | succ m ih =>
    intro k st hk
    have hklt : k < entries.length := by omega
    have hdrop : entries.drop k = entries[k] :: entries.drop (k + 1) :=
      List.drop_eq_getElem_cons hklt
    have hget : entries[k]? = some entries[k] := List.getElem?_eq_getElem hklt
    rw [hdrop, List.range'_succ, List.foldlM_cons]
    show (applyStep ph clusters entries st k) >>= _ = applyGo _ _ (List.enumFrom k _) st
    rw [applyStep_eq_applyStepK hget]
    show _ = applyGo _ _ ((k, entries[k]) :: List.enumFrom (k + 1) (entries.drop (k + 1))) st
    unfold applyGo
    cases hres : applyStepK ph clusters st (k, entries[k]) with
    | error e => rfl
    | ok st2 =>
      show List.foldlM _ st2 _ =
        applyGo ph clusters (List.enumFrom (k + 1) (entries.drop (k + 1))) st2
      exact ih (k + 1) st2 (by omega)

theorem write_eq_applyGo {h : ImageHandle} {img : GbImage} {ph : ProtectedHeader}
    {dt : DigestTable} (hph : h.protected_header = some ph) (hdt : h.digest_table = some dt)
    (hcc : dt.digest_table.length = ph.cluster_count) (dest0 : ByteStr) :
    write h img dest0 =
      applyGo ph img.clusters dt.digest_table.enum
        (extendTo dest0 h.primary_header.size, 0) := by
  unfold write
  rw [hph, hdt]
  show (List.range ph.cluster_count).foldlM _ _ = _
  rw [List.range_eq_range', List.enum_eq_enumFrom,
    foldlM_range'_eq_applyGo ph img.clusters dt.digest_table ph.cluster_count 0 _ (by omega)]
  rfl

theorem entryOk_payload {ph : ProtectedHeader} {clusters : List (Nat × Cluster)}
    {ie : Nat × DigestTableEntry} (h : entryOk ph clusters ie = true) :
    decodeEntry ph clusters ie.1 ie.2 = .ok (payloadOf ph clusters ie.1 ie.2) ∧
      (payloadOf ph clusters ie.1 ie.2).length = ph.block_size ∧
      sha256 (payloadOf ph clusters ie.1 ie.2) = ie.2.digest := by
  unfold entryOk at h
  cases hres : decodeEntry ph clusters ie.1 ie.2 with
  | error e =>
    rw [hres] at h
    simp at h
  | ok d =>
    rw [hres] at h
    simp only [Bool.and_eq_true, beq_iff_eq] at h
    have hpay : payloadOf ph clusters ie.1 ie.2 = d := by
      unfold payloadOf
      rw [hres]
    rw [hpay]
    exact ⟨rfl, h.1, h.2⟩

theorem applyGo_run {ph : ProtectedHeader} {clusters : List (Nat × Cluster)} :
    ∀ (ies : List (Nat × DigestTableEntry)) (dest : ByteStr) (w : Nat),
      (∀ ie ∈ ies, entryOk ph clusters ie = true) →
      (∀ ie ∈ ies, ie.2.block_offset + ph.block_size ≤ dest.length) →
      ∃ c, applyGo ph clusters ies (dest, w) = .ok (applyFold ph clusters dest ies, c) := by
  intro ies
  induction ies with
  | nil =>
    intro dest w _ _
    exact ⟨w, rfl⟩
  | cons ie rest ih =>
    intro dest w hok hbnd
    obtain ⟨hchain, hlen, hdig⟩ := entryOk_payload (hok ie (List.mem_cons_self ie rest))
    have hb : ie.2.block_offset + ph.block_size ≤ dest.length :=
      hbnd ie (List.mem_cons_self ie rest)
    have hread : readExact dest ie.2.block_offset ph.block_size =
        .ok ((dest.drop ie.2.block_offset).take ph.block_size) := readExact_eq_ok hb
    have hstep : ∃ w2, applyStepK ph clusters (dest, w) ie =
        .ok (writeAt dest ie.2.block_offset (payloadOf ph clusters ie.1 ie.2), w2) := by
      unfold applyStepK
      simp only [hread]
      by_cases hskip : sha256 ((dest.drop ie.2.block_offset).take ph.block_size) = ie.2.digest
      · refine ⟨w, ?_⟩
        rw [if_pos hskip]
        have hslice : (dest.drop ie.2.block_offset).take
            ((payloadOf ph clusters ie.1 ie.2).length) = payloadOf ph clusters ie.1 ie.2 := by
          rw [hlen]
          calc (dest.drop ie.2.block_offset).take ph.block_size
              = sha256 ((dest.drop ie.2.block_offset).take ph.block_size) := rfl
            _ = ie.2.digest := hskip
            _ = sha256 (payloadOf ph clusters ie.1 ie.2) := hdig.symm
            _ = payloadOf ph clusters ie.1 ie.2 := rfl
        rw [writeAt_slice_self (by rw [hlen]; exact hb) hslice]
      · refine ⟨w + 1, ?_⟩
        rw [if_neg hskip]
        simp only [hchain]
    obtain ⟨w2, hstep⟩ := hstep
    have hred : applyGo ph clusters (ie :: rest) (dest, w) = applyGo ph clusters rest
        (writeAt dest ie.2.block_offset (payloadOf ph clusters ie.1 ie.2), w2) := by
      simp only [applyGo, hstep]
    rw [hred]
    unfold applyFold
    rw [List.foldl_cons]
    have hlw : (writeAt dest ie.2.block_offset
        (payloadOf ph clusters ie.1 ie.2)).length = dest.length :=
      length_writeAt (by rw [hlen]; exact hb)
    exact ih _ w2 (fun x hx => hok x (List.mem_cons_of_mem ie hx))
      (fun x hx => by rw [hlw]; exact hbnd x (List.mem_cons_of_mem ie hx))

theorem applyGo_skip {ph : ProtectedHeader} {clusters : List (Nat × Cluster)} :
    ∀ (ies : List (Nat × DigestTableEntry)) (dest : ByteStr) (w : Nat),
      (∀ ie ∈ ies, entryOk ph clusters ie = true) →
      (∀ ie ∈ ies, readExact dest ie.2.block_offset ph.block_size =
        .ok (payloadOf ph clusters ie.1 ie.2)) →
      applyGo ph clusters ies (dest, w) = .ok (dest, w) := by
  intro ies
  induction ies with
  | nil => intro dest w _ _; rfl
  | cons ie rest ih =>
    intro dest w hok hread
    obtain ⟨_, _, hdig⟩ := entryOk_payload (hok ie (List.mem_cons_self ie rest))
    have hstep : applyStepK ph clusters (dest, w) ie = .ok (dest, w) := by
      unfold applyStepK
      simp only [hread ie (List.mem_cons_self ie rest), if_pos hdig]
    have hred : applyGo ph clusters (ie :: rest) (dest, w) =
        applyGo ph clusters rest (dest, w) := by
      simp only [applyGo, hstep]
    rw [hred]
    exact ih dest w (fun x hx => hok x (List.mem_cons_of_mem ie hx))
      (fun x hx => hread x (List.mem_cons_of_mem ie hx))

/-! Lemmas about the deposited blocks `applyFold` leaves on the target. -/

theorem applyFold_length {ph : ProtectedHeader} {clusters : List (Nat × Cluster)} :
    ∀ (ies : List (Nat × DigestTableEntry)) (d : ByteStr),
      (∀ ie ∈ ies, (payloadOf ph clusters ie.1 ie.2).length = ph.block_size) →
      (∀ ie ∈ ies, ie.2.block_offset + ph.block_size ≤ d.length) →
      (applyFold ph clusters d ies).length = d.length := by
  intro ies
  induction ies with
  | nil => intro d _ _; rfl
  | cons ie rest ih =>
    intro d hpl hbnd
    have hlen : (payloadOf ph clusters ie.1 ie.2).length = ph.block_size :=
      hpl ie (List.mem_cons_self ie rest)
    have hb : ie.2.block_offset + ph.block_size ≤ d.length :=
      hbnd ie (List.mem_cons_self ie rest)
    have hlw : (writeAt d ie.2.block_offset (payloadOf ph clusters ie.1 ie.2)).length =
        d.length := length_writeAt (by rw [hlen]; exact hb)
    unfold applyFold
    rw [List.foldl_cons]
    show (applyFold ph clusters _ rest).length = _
    rw [ih _ (fun x hx => hpl x (List.mem_cons_of_mem ie hx))
      (fun x hx => by rw [hlw]; exact hbnd x (List.mem_cons_of_mem ie hx)), hlw]

theorem applyFold_read_above {ph : ProtectedHeader} {clusters : List (Nat × Cluster)} :
    ∀ (ies : List (Nat × DigestTableEntry)) (d : ByteStr) (off len : Nat),
      (∀ ie ∈ ies, (payloadOf ph clusters ie.1 ie.2).length = ph.block_size) →
      (∀ ie ∈ ies, ie.2.block_offset + ph.block_size ≤ d.length) →
      (∀ ie ∈ ies, off + len ≤ ie.2.block_offset) →
      readExact (applyFold ph clusters d ies) off len = readExact d off len := by
  intro ies
  induction ies with
  | nil => intro d off len _ _ _; rfl
  | cons ie rest ih =>
    intro d off len hpl hbnd habove
    have hlen := hpl ie (List.mem_cons_self ie rest)
    have hb := hbnd ie (List.mem_cons_self ie rest)
    have hlw : (writeAt d ie.2.block_offset (payloadOf ph clusters ie.1 ie.2)).length =
        d.length := length_writeAt (by rw [hlen]; exact hb)
    unfold applyFold
    rw [List.foldl_cons]
    show readExact (applyFold ph clusters _ rest) off len = _
    rw [ih _ off len (fun x hx => hpl x (List.mem_cons_of_mem ie hx))
      (fun x hx => by rw [hlw]; exact hbnd x (List.mem_cons_of_mem ie hx))
      (fun x hx => habove x (List.mem_cons_of_mem ie hx))]
    exact readExact_writeAt_above (habove ie (List.mem_cons_self ie rest))
      (by rw [hlen]; exact hb)

theorem applyFold_readback {ph : ProtectedHeader} {clusters : List (Nat × Cluster)} :
    ∀ (ies : List (Nat × DigestTableEntry)) (d : ByteStr),
      (∀ ie ∈ ies, (payloadOf ph clusters ie.1 ie.2).length = ph.block_size) →
      (∀ ie ∈ ies, ie.2.block_offset + ph.block_size ≤ d.length) →
      List.Pairwise
        (fun a b : Nat × DigestTableEntry =>
          a.2.block_offset + ph.block_size ≤ b.2.block_offset) ies →
      ∀ ie ∈ ies, readExact (applyFold ph clusters d ies) ie.2.block_offset ph.block_size =
        .ok (payloadOf ph clusters ie.1 ie.2) := by
  intro ies
  induction ies with
  | nil => intro d _ _ _ ie hie; cases hie
  | cons x rest ih =>
    intro d hpl hbnd hpw ie hie
    rw [List.pairwise_cons] at hpw
    have hlenx := hpl x (List.mem_cons_self x rest)
    have hbx := hbnd x (List.mem_cons_self x rest)
    have hlw : (writeAt d x.2.block_offset (payloadOf ph clusters x.1 x.2)).length =
        d.length := length_writeAt (by rw [hlenx]; exact hbx)
    have hfold : applyFold ph clusters d (x :: rest) =
        applyFold ph clusters (writeAt d x.2.block_offset (payloadOf ph clusters x.1 x.2))
          rest := by
      unfold applyFold
      rw [List.foldl_cons]
    rcases List.mem_cons.mp hie with hx | hrest
    · subst hx
      rw [hfold, applyFold_read_above rest _ _ _
        (fun y hy => hpl y (List.mem_cons_of_mem ie hy))
        (fun y hy => by rw [hlw]; exact hbnd y (List.mem_cons_of_mem ie hy))
        (fun y hy => hpw.1 y hy)]
      have := @readExact_writeAt_self d (payloadOf ph clusters ie.1 ie.2)
        ie.2.block_offset (by rw [hlenx]; exact hbx)
      rw [hlenx] at this
      exact this
    · rw [hfold]
      exact ih _ (fun y hy => hpl y (List.mem_cons_of_mem x hy))
        (fun y hy => by rw [hlw]; exact hbnd y (List.mem_cons_of_mem x hy))
        hpw.2 ie hrest

theorem applyFold_getElem_outside {ph : ProtectedHeader} {clusters : List (Nat × Cluster)} :
    ∀ (ies : List (Nat × DigestTableEntry)) (d : ByteStr) (j : Nat),
      (∀ ie ∈ ies, (payloadOf ph clusters ie.1 ie.2).length = ph.block_size) →
      (∀ ie ∈ ies, ie.2.block_offset + ph.block_size ≤ d.length) →
      (∀ ie ∈ ies, j < ie.2.block_offset ∨ ie.2.block_offset + ph.block_size ≤ j) →
      (applyFold ph clusters d ies)[j]? = d[j]? := by
  intro ies
  induction ies with
  | nil => intro d j _ _ _; rfl
  | cons ie rest ih =>
    intro d j hpl hbnd houts
    have hlen := hpl ie (List.mem_cons_self ie rest)
    have hb := hbnd ie (List.mem_cons_self ie rest)
    have hlw : (writeAt d ie.2.block_offset (payloadOf ph clusters ie.1 ie.2)).length =
        d.length := length_writeAt (by rw [hlen]; exact hb)
    unfold applyFold
    rw [List.foldl_cons]
    show (applyFold ph clusters _ rest)[j]? = _
    rw [ih _ j (fun x hx => hpl x (List.mem_cons_of_mem ie hx))
      (fun x hx => by rw [hlw]; exact hbnd x (List.mem_cons_of_mem ie hx))
      (fun x hx => houts x (List.mem_cons_of_mem ie hx))]
    rw [getElem?_writeAt (by rw [hlen]; exact hb)]
    rcases houts ie (List.mem_cons_self ie rest) with hj | hj
    · rw [if_neg (by rw [hlen]; omega)]
    · rw [if_neg (by rw [hlen]; omega)]

/-! From the boolean well-formedness checks to the ordering facts the loop
lemmas need. -/

theorem orderedEntries_pairwise {bs : Nat} :
    ∀ entries : List DigestTableEntry, orderedEntries bs entries = true →
      List.Pairwise (fun a b => a.block_offset + bs ≤ b.block_offset) entries := by
  intro entries
  induction entries with
  | nil => intro _; exact List.Pairwise.nil
  | cons a rest ih =>
    intro h
    cases rest with
    | nil => exact List.pairwise_cons.mpr ⟨fun y hy => absurd hy (List.not_mem_nil y), .nil⟩
    | cons b rest2 =>
      unfold orderedEntries at h
      simp only [Bool.and_eq_true, decide_eq_true_eq] at h
      have hpw := ih h.2
      rw [List.pairwise_cons]
      refine ⟨?_, hpw⟩
      intro y hy
      rcases List.mem_cons.mp hy with hb | hr2
      · subst hb; exact h.1
      · have := (List.pairwise_cons.mp hpw).1 y hr2
        omega

theorem pairwise_enumFrom {α : Type} {R : α → α → Prop} :
    ∀ (l : List α) (k : Nat), List.Pairwise R l →
      List.Pairwise (fun a b => R a.2 b.2) (l.enumFrom k) := by
  intro l
  induction l with
  | nil => intro _ _; exact List.Pairwise.nil
  | cons x rest ih =>
    intro k h
    rw [List.pairwise_cons] at h
    show List.Pairwise _ ((k, x) :: rest.enumFrom (k + 1))
    rw [List.pairwise_cons]
    refine ⟨?_, ih (k + 1) h.2⟩
    intro y hy
    have hy2 : y.2 ∈ rest := by
      have := List.mem_map_of_mem Prod.snd hy
      rwa [List.enumFrom_map_snd] at this
    exact h.1 y.2 hy2

theorem mem_enum_snd {α : Type} {l : List α} {ie : Nat × α} (h : ie ∈ l.enum) : ie.2 ∈ l := by
  have := List.mem_map_of_mem Prod.snd h
  rwa [List.enum_eq_enumFrom, List.enumFrom_map_snd] at this

theorem applyWF_spec {ph : ProtectedHeader} {entries : List DigestTableEntry}
    {clusters : List (Nat × Cluster)} {size : Nat}
    (hwf : applyWF ph entries clusters size = true) :
    entries.length = ph.cluster_count ∧ 0 < ph.block_size ∧
      List.Pairwise (fun a b : Nat × DigestTableEntry =>
        a.2.block_offset + ph.block_size ≤ b.2.block_offset) entries.enum ∧
      (∀ ie ∈ entries.enum, ie.2.block_offset + ph.block_size ≤ size) ∧
      (∀ ie ∈ entries.enum, entryOk ph clusters ie = true) := by
  unfold applyWF at hwf
  simp only [Bool.and_eq_true, List.all_eq_true, beq_iff_eq, decide_eq_true_eq] at hwf
  obtain ⟨⟨⟨⟨hcc, hbs⟩, hord⟩, hbnd⟩, hok⟩ := hwf
  refine ⟨hcc, hbs, ?_, ?_, hok⟩
  · rw [List.enum_eq_enumFrom]
    exact pairwise_enumFrom entries 0 (orderedEntries_pairwise entries hord)
  · intro ie hie
    exact hbnd ie.2 (mem_enum_snd hie)

/-- A well-formed loaded handle applies successfully, and the final target is
the initial (extended) target with every digest entry's payload written over
its block. -/
theorem write_wf {h : ImageHandle} {img : GbImage} {ph : ProtectedHeader} {dt : DigestTable}
    (hph : h.protected_header = some ph) (hdt : h.digest_table = some dt)
    (hwf : applyWF ph dt.digest_table img.clusters h.primary_header.size = true)
    (dest0 : ByteStr) :
    ∃ c, write h img dest0 = .ok
      (applyFold ph img.clusters (extendTo dest0 h.primary_header.size)
        dt.digest_table.enum, c) := by
  obtain ⟨hcc, _, _, hbnd, hok⟩ := applyWF_spec hwf
  rw [write_eq_applyGo hph hdt hcc dest0]
  apply applyGo_run
  · exact hok
  · intro ie hie
    rw [length_extendTo]
    have := hbnd ie hie
    omega

/-- Claim C4 (amended): idempotence of apply holds for a loaded handle whose
digest table is consistent with the cluster area (`handleWF`), not for every
loaded handle: a second apply then leaves the target exactly as the first
left it and takes the else branch (a cluster-body write) zero times. -/
theorem write_idempotent {h : ImageHandle} {img : GbImage} {t : ByteStr} {r : ByteStr × Nat}
    (hwf : handleWF h img = true) (h1 : write h img t = .ok r) :
    write h img r.1 = .ok (r.1, 0) := by
  cases hph : h.protected_header with
  | none => unfold handleWF at hwf; rw [hph] at hwf; simp at hwf
  | some ph =>
    cases hdt : h.digest_table with
    | none => unfold handleWF at hwf; rw [hph, hdt] at hwf; simp at hwf
    | some dt =>
      have hwf2 : applyWF ph dt.digest_table img.clusters h.primary_header.size = true := by
        unfold handleWF at hwf
        rw [hph, hdt] at hwf
        exact hwf
      obtain ⟨hcc, hbs, hpw, hbnd, hok⟩ := applyWF_spec hwf2
      have hpl : ∀ ie ∈ dt.digest_table.enum,
          (payloadOf ph img.clusters ie.1 ie.2).length = ph.block_size :=
        fun ie hie => (entryOk_payload (hok ie hie)).2.1
      obtain ⟨c, hrun⟩ := write_wf hph hdt hwf2 t
      rw [h1] at hrun
      have hr : r = (applyFold ph img.clusters (extendTo t h.primary_header.size)
          dt.digest_table.enum, c) := Except.ok.inj hrun
      have hExtLen : (extendTo t h.primary_header.size).length =
          max t.length h.primary_header.size := length_extendTo t h.primary_header.size
      have hbnd2 : ∀ ie ∈ dt.digest_table.enum,
          ie.2.block_offset + ph.block_size ≤ (extendTo t h.primary_header.size).length := by
        intro ie hie
        rw [hExtLen]
        have := hbnd ie hie
        omega
      have hfinalLen : (applyFold ph img.clusters (extendTo t h.primary_header.size)
          dt.digest_table.enum).length = (extendTo t h.primary_header.size).length :=
        applyFold_length dt.digest_table.enum _ hpl hbnd2
      rw [write_eq_applyGo hph hdt hcc r.1]
      have hr1 : r.1 = applyFold ph img.clusters (extendTo t h.primary_header.size)
          dt.digest_table.enum := by rw [hr]
      rw [hr1]
      have hsz : h.primary_header.size ≤ (applyFold ph img.clusters
          (extendTo t h.primary_header.size) dt.digest_table.enum).length := by
        rw [hfinalLen, hExtLen]
        omega
      rw [extendTo_of_le hsz]
      exact applyGo_skip dt.digest_table.enum _ 0 hok
        (fun ie hie => applyFold_readback dt.digest_table.enum _ hpl hbnd2 hpw ie hie)

/-! Characterization of `convert`'s cluster loop. -/

theorem convStepUsed_eq {ph : ProtectedHeader} (hcomp : ph.cluster_compression = .Zstd)
    (henc : ph.cluster_encryption = .None) {e : QcowL2Entry} {d : ByteStr}
    (hc : e.contents = some d) (st : ConvState) :
    convStepUsed ph st e = .ok
      { block_offset := st.block_offset
        cluster_count := st.cluster_count + 1
        cluster_offset := st.cluster_offset + 4 + (specBody d).length
        digests := st.digests ++
          [{ cluster_offset := st.cluster_offset, block_offset := st.block_offset
             digest := sha256 d }]
        clusters := st.clusters ++
          [(st.cluster_offset, { size := (specBody d).length, data := specBody d })] } := by
  unfold convStepUsed
  rw [hc]
  simp only [hcomp, henc, exBind_ok, exPure, zstd_encode, specBody]

theorem convStepL2_used {ph : ProtectedHeader} (hcomp : ph.cluster_compression = .Zstd)
    (henc : ph.cluster_encryption = .None) {cs : Nat} {e : QcowL2Entry} {d : ByteStr}
    (hu : e.is_used = true) (hc : e.contents = some d) (st : ConvState) :
    convStepL2 ph cs st e = .ok
      { block_offset := st.block_offset + cs
        cluster_count := st.cluster_count + 1
        cluster_offset := st.cluster_offset + 4 + (specBody d).length
        digests := st.digests ++
          [{ cluster_offset := st.cluster_offset, block_offset := st.block_offset
             digest := sha256 d }]
        clusters := st.clusters ++
          [(st.cluster_offset, { size := (specBody d).length, data := specBody d })] } := by
  unfold convStepL2
  rw [hu]
  simp [convStepUsed_eq hcomp henc hc st, exBind_ok, exPure]

theorem convStepL2_unused {ph : ProtectedHeader} {cs : Nat} {e : QcowL2Entry}
    (hu : e.is_used = false) (st : ConvState) :
    convStepL2 ph cs st e = .ok { st with block_offset := st.block_offset + cs } := by
  unfold convStepL2
  rw [hu]
  simp [exBind_ok, exPure]

theorem l2Blocks_cons (cs : Nat) (e : QcowL2Entry) (rest : List QcowL2Entry) (off : Nat) :
    l2Blocks cs (e :: rest) off =
      if e.is_used then (off, e.contents.getD []) :: l2Blocks cs rest (off + cs)
      else l2Blocks cs rest (off + cs) := rfl

theorem l1Blocks_cons (cs l2n : Nat) (l1 : QcowL1Entry) (rest : List QcowL1Entry) (off : Nat) :
    l1Blocks cs l2n (l1 :: rest) off =
      match l1.l2_table with
      | some es => l2Blocks cs es off ++ l1Blocks cs l2n rest (off + cs * es.length)
      | none => l1Blocks cs l2n rest (off + cs * l2n) := rfl

theorem l1Advance_cons (cs l2n : Nat) (l1 : QcowL1Entry) (rest : List QcowL1Entry) :
    l1Advance cs l2n (l1 :: rest) =
      (match l1.l2_table with
        | some es => cs * es.length
        | none => cs * l2n) + l1Advance cs l2n rest := rfl

theorem l1Advance_none {l1 : QcowL1Entry} (h : l1.l2_table = none) (cs l2n : Nat)
    (rest : List QcowL1Entry) :
    l1Advance cs l2n (l1 :: rest) = cs * l2n + l1Advance cs l2n rest := by
  rw [l1Advance_cons, h]

theorem l1Advance_some {l1 : QcowL1Entry} {es : List QcowL2Entry} (h : l1.l2_table = some es)
    (cs l2n : Nat) (rest : List QcowL1Entry) :
    l1Advance cs l2n (l1 :: rest) = cs * es.length + l1Advance cs l2n rest := by
  rw [l1Advance_cons, h]

theorem specPairs_cons (coff : Nat) (b : Nat × ByteStr) (rest : List (Nat × ByteStr)) :
    specPairs coff (b :: rest) =
      ({ cluster_offset := coff, block_offset := b.1, digest := sha256 b.2 },
        (coff, { size := (specBody b.2).length, data := specBody b.2 })) ::
        specPairs (coff + 4 + (specBody b.2).length) rest := rfl

theorem specEnd_cons (coff : Nat) (b : Nat × ByteStr) (rest : List (Nat × ByteStr)) :
    specEnd coff (b :: rest) = specEnd (coff + 4 + (specBody b.2).length) rest := rfl

theorem specPairs_append (b1 b2 : List (Nat × ByteStr)) :
    ∀ coff, specPairs coff (b1 ++ b2) =
      specPairs coff b1 ++ specPairs (specEnd coff b1) b2 := by
  induction b1 with
  | nil => intro coff; rfl
  | cons b rest ih =>
    intro coff
    rw [List.cons_append, specPairs_cons, specPairs_cons, ih, specEnd_cons, List.cons_append]

theorem specEnd_append (b1 b2 : List (Nat × ByteStr)) :
    ∀ coff, specEnd coff (b1 ++ b2) = specEnd (specEnd coff b1) b2 := by
  induction b1 with
  | nil => intro coff; rfl
  | cons b rest ih =>
    intro coff
    rw [List.cons_append, specEnd_cons, specEnd_cons, ih]

theorem length_specPairs : ∀ (bl : List (Nat × ByteStr)) (coff : Nat),
    (specPairs coff bl).length = bl.length := by
  intro bl
  induction bl with
  | nil => intro coff; rfl
  | cons b rest ih =>
    intro coff
    rw [specPairs_cons, List.length_cons, List.length_cons, ih]

theorem convFold_l2 {ph : ProtectedHeader} (hcomp : ph.cluster_compression = .Zstd)
    (henc : ph.cluster_encryption = .None) (cs : Nat) :
    ∀ (es : List QcowL2Entry) (st : ConvState),
      (∀ e ∈ es, e.is_used = true → e.contents.isSome = true) →
      es.foldlM (convStepL2 ph cs) st = .ok
        { block_offset := st.block_offset + cs * es.length
          cluster_count := st.cluster_count + (l2Blocks cs es st.block_offset).length
          cluster_offset := specEnd st.cluster_offset (l2Blocks cs es st.block_offset)
          digests := st.digests ++
            (specPairs st.cluster_offset (l2Blocks cs es st.block_offset)).map Prod.fst
          clusters := st.clusters ++
            (specPairs st.cluster_offset (l2Blocks cs es st.block_offset)).map Prod.snd } := by
  intro es
  induction es with
  | nil =>
    intro st _
    cases st
    simp [List.foldlM_nil, l2Blocks, specPairs, specEnd, exPure]
  | cons e rest ih =>
    intro st hre
    rw [List.foldlM_cons]
    by_cases hu : e.is_used = true
    · have hcs : e.contents.isSome = true := hre e (List.mem_cons_self e rest) hu
      obtain ⟨d, hd⟩ := Option.isSome_iff_exists.mp hcs
      rw [convStepL2_used hcomp henc hu hd st, exBind_ok,
        ih _ (fun x hx h2 => hre x (List.mem_cons_of_mem e hx) h2)]
      have hblocks : l2Blocks cs (e :: rest) st.block_offset =
          (st.block_offset, d) :: l2Blocks cs rest (st.block_offset + cs) := by
        rw [l2Blocks_cons, hu, hd]
        simp
      rw [hblocks, specPairs_cons, specEnd_cons]
      exact congrArg Except.ok (ConvState.ext
        (by simp only [List.length_cons]; ring)
        (by simp only [List.length_cons]; omega)
        rfl
        (by simp [List.append_assoc])
        (by simp [List.append_assoc]))
    · have hu2 : e.is_used = false := by
        cases hb : e.is_used
        · rfl
        · exact absurd hb hu
      rw [convStepL2_unused hu2 st, exBind_ok,
        ih _ (fun x hx h2 => hre x (List.mem_cons_of_mem e hx) h2)]
      have hblocks : l2Blocks cs (e :: rest) st.block_offset =
          l2Blocks cs rest (st.block_offset + cs) := by
        rw [l2Blocks_cons, hu2]
        simp
      rw [hblocks]
      exact congrArg Except.ok (ConvState.ext
        (by simp only [List.length_cons]; ring)
        rfl rfl rfl rfl)

theorem convFold_l1 {ph : ProtectedHeader} (hcomp : ph.cluster_compression = .Zstd)
    (henc : ph.cluster_encryption = .None) (cs l2n : Nat) :
    ∀ (l1s : List QcowL1Entry) (st : ConvState),
      (∀ l1 ∈ l1s, ∀ es, l1.l2_table = some es →
        ∀ e ∈ es, e.is_used = true → e.contents.isSome = true) →
      l1s.foldlM (convStepL1 ph cs l2n) st = .ok
        { block_offset := st.block_offset + l1Advance cs l2n l1s
          cluster_count := st.cluster_count +
            (l1Blocks cs l2n l1s st.block_offset).length
          cluster_offset := specEnd st.cluster_offset (l1Blocks cs l2n l1s st.block_offset)
          digests := st.digests ++
            (specPairs st.cluster_offset (l1Blocks cs l2n l1s st.block_offset)).map Prod.fst
          clusters := st.clusters ++
            (specPairs st.cluster_offset
              (l1Blocks cs l2n l1s st.block_offset)).map Prod.snd } := by
  intro l1s
  induction l1s with
  | nil =>
    intro st _
    cases st
    simp [List.foldlM_nil, l1Blocks, l1Advance, specPairs, specEnd, exPure]
  | cons l1 rest ih =>
    intro st hre
    rw [List.foldlM_cons]
    cases hl2 : l1.l2_table with
    | none =>
      have hstep : convStepL1 ph cs l2n st l1 =
          .ok { st with block_offset := st.block_offset + cs * l2n } := by
        unfold convStepL1
        rw [hl2]
        rfl
      rw [hstep, exBind_ok, ih _ (fun x hx => hre x (List.mem_cons_of_mem l1 hx))]
      have hblocks : l1Blocks cs l2n (l1 :: rest) st.block_offset =
          l1Blocks cs l2n rest (st.block_offset + cs * l2n) := by
        rw [l1Blocks_cons, hl2]
      rw [hblocks]
      exact congrArg Except.ok (ConvState.ext
        (by rw [l1Advance_none hl2]; ring)
        rfl rfl rfl rfl)
    | some es =>
      have hstep : convStepL1 ph cs l2n st l1 = es.foldlM (convStepL2 ph cs) st := by
        unfold convStepL1
        rw [hl2]
      have hre2 : ∀ e ∈ es, e.is_used = true → e.contents.isSome = true :=
        hre l1 (List.mem_cons_self l1 rest) es hl2
      rw [hstep, convFold_l2 hcomp henc cs es st hre2, exBind_ok,
        ih _ (fun x hx => hre x (List.mem_cons_of_mem l1 hx))]
      have hblocks : l1Blocks cs l2n (l1 :: rest) st.block_offset =
          l2Blocks cs es st.block_offset ++
            l1Blocks cs l2n rest (st.block_offset + cs * es.length) := by
        rw [l1Blocks_cons, hl2]
      rw [hblocks, specPairs_append, specEnd_append]
      exact congrArg Except.ok (ConvState.ext
        (by rw [l1Advance_some hl2]; ring)
        (by simp only [List.length_append]; omega)
        rfl
        (by simp [List.map_append, List.append_assoc])
        (by simp [List.map_append, List.append_assoc]))

/-- The whole of `convert` as the name-length check, the cluster loop, and a
pure assembly of the result. -/
theorem convert_unfold (source : Qcow3) (cfg : BuildConfig) (rng : RandomMaterial)
    (ts ce : Nat) :
    convert source cfg rng ts ce =
      if 64 < (utf8Bytes cfg.name).length then .error .Panic
      else
        (source.l1_table.foldlM
          (convStepL1 (convertPH source rng) source.cluster_size
            source.l2_entries_per_cluster)
          (ConvState.mk 0 0 ce [] [])).map (convertGbResult source cfg rng ts ce) := by
  unfold convert convertGbResult convertPH
  by_cases hname : 64 < (utf8Bytes cfg.name).length
  · rw [if_pos hname, if_pos hname]
    rfl
  · rw [if_neg hname, if_neg hname]
    simp only [exPure, exBind_ok, Option.isSome_none, Bool.false_eq_true, if_false]
    cases hfold : source.l1_table.foldlM
        (convStepL1
          { block_size := source.cluster_size, cluster_count := count_clusters source
            cluster_compression := .Zstd, cluster_encryption := .None
            cluster_key := rng.cluster_key, nonce_count := 0, nonce_table := [] }
          source.cluster_size source.l2_entries_per_cluster)
        (ConvState.mk 0 0 ce [] []) with
    | error e => simp [hfold, exBind_error, Except.map]
    | ok st => simp [hfold, exBind_ok, exPure, Except.map]

/-! Membership and ordering of the populated blocks. -/

theorem mem_l2Blocks {cs : Nat} :
    ∀ (es : List QcowL2Entry) (off : Nat) (b : Nat × ByteStr), b ∈ l2Blocks cs es off →
      ∃ e ∈ es, e.is_used = true ∧ b.2 = e.contents.getD [] := by
  intro es
  induction es with
  | nil => intro off b hb; cases hb
  | cons e rest ih =>
    intro off b hb
    rw [l2Blocks_cons] at hb
    by_cases hu : e.is_used
    · rw [if_pos hu] at hb
      rcases List.mem_cons.mp hb with hhead | htail
      · exact ⟨e, List.mem_cons_self e rest, hu, by rw [hhead]⟩
      · obtain ⟨e2, he2, hx⟩ := ih (off + cs) b htail
        exact ⟨e2, List.mem_cons_of_mem e he2, hx⟩
    · rw [if_neg hu] at hb
      obtain ⟨e2, he2, hx⟩ := ih (off + cs) b hb
      exact ⟨e2, List.mem_cons_of_mem e he2, hx⟩

theorem mem_l1Blocks {cs l2n : Nat} :
    ∀ (l1s : List QcowL1Entry) (off : Nat) (b : Nat × ByteStr),
      b ∈ l1Blocks cs l2n l1s off →
      ∃ l1 ∈ l1s, ∃ es, l1.l2_table = some es ∧
        ∃ e ∈ es, e.is_used = true ∧ b.2 = e.contents.getD [] := by
  intro l1s
  induction l1s with
  | nil => intro off b hb; cases hb
  | cons l1 rest ih =>
    intro off b hb
    rw [l1Blocks_cons] at hb
    cases hl2 : l1.l2_table with
    | none =>
      rw [hl2] at hb
      obtain ⟨l2, hl2m, hx⟩ := ih _ b hb
      exact ⟨l2, List.mem_cons_of_mem l1 hl2m, hx⟩
    | some es =>
      rw [hl2] at hb
      rcases List.mem_append.mp hb with hin | hrest
      · obtain ⟨e, he, hx⟩ := mem_l2Blocks es off b hin
        exact ⟨l1, List.mem_cons_self l1 rest, es, hl2, e, he, hx⟩
      · obtain ⟨l2, hl2m, hx⟩ := ih _ b hrest
        exact ⟨l2, List.mem_cons_of_mem l1 hl2m, hx⟩

theorem l2Blocks_bounds {cs : Nat} :
    ∀ (es : List QcowL2Entry) (off : Nat) (b : Nat × ByteStr), b ∈ l2Blocks cs es off →
      off ≤ b.1 ∧ b.1 + cs ≤ off + cs * es.length := by
  intro es
  induction es with
  | nil => intro off b hb; cases hb
  | cons e rest ih =>
    intro off b hb
    rw [l2Blocks_cons] at hb
    have hstep : ∀ hb2 : b ∈ l2Blocks cs rest (off + cs),
        off ≤ b.1 ∧ b.1 + cs ≤ off + cs * (e :: rest).length := by
      intro hb2
      obtain ⟨h1, h2⟩ := ih (off + cs) b hb2
      rw [List.length_cons, Nat.mul_succ]
      constructor
      · omega
      · calc b.1 + cs ≤ off + cs + cs * rest.length := h2
          _ = off + (cs * rest.length + cs) := by ring
    by_cases hu : e.is_used
    · rw [if_pos hu] at hb
      rcases List.mem_cons.mp hb with hhead | htail
      · subst hhead
        rw [List.length_cons, Nat.mul_succ]
        constructor
        · exact le_refl _
        · have : cs ≤ cs * rest.length + cs := by omega
          omega
      · exact hstep htail
    · rw [if_neg hu] at hb
      exact hstep hb

theorem l2Blocks_pairwise {cs : Nat} :
    ∀ (es : List QcowL2Entry) (off : Nat),
      List.Pairwise (fun a b : Nat × ByteStr => a.1 + cs ≤ b.1) (l2Blocks cs es off) := by
  intro es
  induction es with
  | nil => intro off; exact List.Pairwise.nil
  | cons e rest ih =>
    intro off
    rw [l2Blocks_cons]
    by_cases hu : e.is_used
    · rw [if_pos hu, List.pairwise_cons]
      refine ⟨?_, ih (off + cs)⟩
      intro b hb
      exact (l2Blocks_bounds rest (off + cs) b hb).1
    · rw [if_neg hu]
      exact ih (off + cs)

theorem l1Blocks_bounds {cs l2n : Nat} :
    ∀ (l1s : List QcowL1Entry) (off : Nat) (b : Nat × ByteStr),
      b ∈ l1Blocks cs l2n l1s off →
      off ≤ b.1 ∧ b.1 + cs ≤ off + l1Advance cs l2n l1s := by
  intro l1s
  induction l1s with
  | nil => intro off b hb; cases hb
  | cons l1 rest ih =>
    intro off b hb
    rw [l1Blocks_cons] at hb
    cases hl2 : l1.l2_table with
    | none =>
      rw [hl2] at hb
      obtain ⟨h1, h2⟩ := ih _ b hb
      rw [l1Advance_none hl2]
      omega
    | some es =>
      rw [hl2] at hb
      rw [l1Advance_some hl2]
      rcases List.mem_append.mp hb with hin | hrest
      · obtain ⟨h1, h2⟩ := l2Blocks_bounds es off b hin
        omega
      · obtain ⟨h1, h2⟩ := ih _ b hrest
        omega

theorem l1Blocks_pairwise {cs l2n : Nat} :
    ∀ (l1s : List QcowL1Entry) (off : Nat),
      List.Pairwise (fun a b : Nat × ByteStr => a.1 + cs ≤ b.1)
        (l1Blocks cs l2n l1s off) := by
  intro l1s
  induction l1s with
  | nil => intro off; exact List.Pairwise.nil
  | cons l1 rest ih =>
    intro off
    rw [l1Blocks_cons]
    cases hl2 : l1.l2_table with
    | none => exact ih _
    | some es =>
      rw [List.pairwise_append]
      refine ⟨l2Blocks_pairwise es off, ih _, ?_⟩
      intro a ha b hb
      have h1 := (l2Blocks_bounds es off a ha).2
      have h2 := (l1Blocks_bounds rest _ b hb).1
      omega

/-! Properties of the digest entries and cluster records `convert` emits. -/

theorem specPairs_lb : ∀ (bl : List (Nat × ByteStr)) (coff : Nat)
    (pr : DigestTableEntry × (Nat × Cluster)), pr ∈ specPairs coff bl →
      coff ≤ pr.1.cluster_offset ∧ pr.2.1 = pr.1.cluster_offset := by
  intro bl
  induction bl with
  | nil => intro coff pr hpr; cases hpr
  | cons b rest ih =>
    intro coff pr hpr
    rw [specPairs_cons] at hpr
    rcases List.mem_cons.mp hpr with hhead | htail
    · subst hhead
      exact ⟨le_refl _, rfl⟩
    · obtain ⟨h1, h2⟩ := ih _ pr htail
      exact ⟨by omega, h2⟩

theorem specPairs_lookup : ∀ (bl : List (Nat × ByteStr)) (coff : Nat)
    (pr : DigestTableEntry × (Nat × Cluster)), pr ∈ specPairs coff bl →
      lookupCluster ((specPairs coff bl).map Prod.snd) pr.1.cluster_offset = .ok pr.2.2 := by
  intro bl
  induction bl with
  | nil => intro coff pr hpr; cases hpr
  | cons b rest ih =>
    intro coff pr hpr
    rw [specPairs_cons] at hpr ⊢
    rcases List.mem_cons.mp hpr with hhead | htail
    · subst hhead
      unfold lookupCluster
      rw [List.map_cons, List.find?_cons_of_pos _ (by simp)]
    · have hlb := (specPairs_lb rest _ pr htail).1
      have hne : pr.1.cluster_offset ≠ coff := by omega
      unfold lookupCluster
      rw [List.map_cons, List.find?_cons_of_neg _ (by simp; omega)]
      have := ih _ pr htail
      unfold lookupCluster at this
      exact this

theorem mem_specPairs : ∀ (bl : List (Nat × ByteStr)) (coff : Nat)
    (pr : DigestTableEntry × (Nat × Cluster)), pr ∈ specPairs coff bl →
      ∃ b ∈ bl, pr.1.block_offset = b.1 ∧ pr.1.digest = sha256 b.2 ∧
        pr.2.2 = { size := (specBody b.2).length, data := specBody b.2 } := by
  intro bl
  induction bl with
  | nil => intro coff pr hpr; cases hpr
  | cons b rest ih =>
    intro coff pr hpr
    rw [specPairs_cons] at hpr
    rcases List.mem_cons.mp hpr with hhead | htail
    · subst hhead
      exact ⟨b, List.mem_cons_self b rest, rfl, rfl, rfl⟩
    · obtain ⟨b2, hb2, hx⟩ := ih _ pr htail
      exact ⟨b2, List.mem_cons_of_mem b hb2, hx⟩

theorem mem_specPairs_rev : ∀ (bl : List (Nat × ByteStr)) (coff : Nat)
    (b : Nat × ByteStr), b ∈ bl →
      ∃ pr ∈ specPairs coff bl, pr.1.block_offset = b.1 ∧ pr.1.digest = sha256 b.2 ∧
        pr.2.2 = { size := (specBody b.2).length, data := specBody b.2 } := by
  intro bl
  induction bl with
  | nil => intro coff b hb; cases hb
  | cons b0 rest ih =>
    intro coff b hb
    rw [specPairs_cons]
    rcases List.mem_cons.mp hb with hhead | htail
    · subst hhead
      exact ⟨_, List.mem_cons_self _ _, rfl, rfl, rfl⟩
    · obtain ⟨pr, hpr, hx⟩ := ih (coff + 4 + (specBody b0.2).length) b htail
      exact ⟨pr, List.mem_cons_of_mem _ hpr, hx⟩

theorem specPairs_pairwise {cs : Nat} : ∀ (bl : List (Nat × ByteStr)) (coff : Nat),
    List.Pairwise (fun a b : Nat × ByteStr => a.1 + cs ≤ b.1) bl →
    List.Pairwise
      (fun p q : DigestTableEntry × (Nat × Cluster) =>
        p.1.block_offset + cs ≤ q.1.block_offset) (specPairs coff bl) := by
  intro bl
  induction bl with
  | nil => intro coff _; exact List.Pairwise.nil
  | cons b rest ih =>
    intro coff hpw
    rw [List.pairwise_cons] at hpw
    rw [specPairs_cons, List.pairwise_cons]
    refine ⟨?_, ih _ hpw.2⟩
    intro q hq
    obtain ⟨b2, hb2, hq1, _⟩ := mem_specPairs rest _ q hq
    rw [hq1]
    exact hpw.1 b2 hb2

theorem mem_enumFrom_of_mem {α : Type} {x : α} :
    ∀ (l : List α) (k : Nat), x ∈ l → ∃ i, (i, x) ∈ l.enumFrom k := by
  intro l
  induction l with
  | nil => intro k hx; cases hx
  | cons a rest ih =>
    intro k hx
    rcases List.mem_cons.mp hx with hhead | htail
    · subst hhead
      exact ⟨k, List.mem_cons_self _ _⟩
    · obtain ⟨i, hi⟩ := ih (k + 1) htail
      exact ⟨i, List.mem_cons_of_mem _ hi⟩

theorem decode_spec (source : Qcow3) (rng : RandomMaterial) (i n : Nat) (d : ByteStr) :
    decodeClusterData (convertPH source rng) i { size := n, data := specBody d } =
      .ok d := rfl

theorem l2Blocks_length {cs : Nat} :
    ∀ (es : List QcowL2Entry) (off : Nat),
      (l2Blocks cs es off).length = es.countP (fun e => e.is_used) := by
  intro es
  induction es with
  | nil => intro off; rfl
  | cons e rest ih =>
    intro off
    rw [l2Blocks_cons, List.countP_cons]
    by_cases hu : e.is_used
    · rw [if_pos hu, List.length_cons, ih, if_pos (by rw [hu])]
    · rw [if_neg hu, ih, if_neg (by simpa using hu)]
      omega

theorem l1Blocks_length {cs l2n : Nat} :
    ∀ (l1s : List QcowL1Entry) (off : Nat),
      (l1Blocks cs l2n l1s off).length =
        (l1s.map (fun l1 =>
          match l1.l2_table with
          | some es => es.countP (fun e => e.is_used)
          | none => 0)).sum := by
  intro l1s
  induction l1s with
  | nil => intro off; rfl
  | cons l1 rest ih =>
    intro off
    rw [l1Blocks_cons, List.map_cons, List.sum_cons]
    cases hl2 : l1.l2_table with
    | none => rw [ih]; simp
    | some es => rw [List.length_append, l2Blocks_length, ih]

theorem count_clusters_eq (q : Qcow3) : count_clusters q = (populatedBlocks q).length := by
  unfold count_clusters populatedBlocks
  rw [l1Blocks_length]

/-- Unpacking the qcow2 well-formedness bits. -/
theorem qcow_wf_spec {q : Qcow3} (hwf : qcow_wf q = true) :
    0 < q.cluster_size ∧
      (∀ b ∈ populatedBlocks q, b.2.length = q.cluster_size) ∧
      (∀ b ∈ populatedBlocks q, b.1 + q.cluster_size ≤ q.size) ∧
      (∀ l1 ∈ q.l1_table, ∀ es, l1.l2_table = some es →
        ∀ e ∈ es, e.is_used = true → e.contents.isSome = true) := by
  unfold qcow_wf at hwf
  simp only [Bool.and_eq_true, List.all_eq_true, decide_eq_true_eq] at hwf
  obtain ⟨⟨hcs, hl1⟩, hbnd⟩ := hwf
  have hcontents : ∀ l1 ∈ q.l1_table, ∀ es, l1.l2_table = some es →
      ∀ e ∈ es, e.is_used = true →
        ∃ d, e.contents = some d ∧ d.length = q.cluster_size := by
    intro l1 hl1m es hes e he hu
    have h1 := hl1 l1 hl1m
    rw [hes] at h1
    simp only [List.all_eq_true] at h1
    have h2 := h1 e he
    rw [hu] at h2
    simp only [Bool.not_true, Bool.false_or] at h2
    cases hc : e.contents with
    | none => rw [hc] at h2; simp at h2
    | some d =>
      rw [hc] at h2
      simp only [beq_iff_eq] at h2
      exact ⟨d, rfl, h2⟩
  refine ⟨hcs, ?_, hbnd, ?_⟩
  · intro b hb
    obtain ⟨l1, hl1m, es, hes, e, he, hu, hb2⟩ := mem_l1Blocks q.l1_table 0 b hb
    obtain ⟨d, hd, hdl⟩ := hcontents l1 hl1m es hes e he hu
    rw [hb2, hd]
    exact hdl
  · intro l1 hl1m es hes e he hu
    obtain ⟨d, hd, _⟩ := hcontents l1 hl1m es hes e he hu
    rw [hd]
    rfl

/-- Every digest entry `convert` emits decodes, through the cluster area it
wrote, back to its block data, which hashes to the recorded digest. -/
theorem convert_payload (source : Qcow3) (rng : RandomMaterial)
    (bl : List (Nat × ByteStr)) (coff : Nat) :
    ∀ pr ∈ specPairs coff bl, ∀ i,
      ∃ b ∈ bl,
        decodeEntry (convertPH source rng) ((specPairs coff bl).map Prod.snd) i pr.1 =
            .ok b.2 ∧
          payloadOf (convertPH source rng) ((specPairs coff bl).map Prod.snd) i pr.1 = b.2 ∧
          pr.1.block_offset = b.1 ∧ pr.1.digest = sha256 b.2 := by
  intro pr hpr i
  obtain ⟨b, hb, hoff, hdig, hcl⟩ := mem_specPairs bl coff pr hpr
  have hlk := specPairs_lookup bl coff pr hpr
  have hde : decodeEntry (convertPH source rng) ((specPairs coff bl).map Prod.snd) i pr.1 =
      .ok b.2 := by
    unfold decodeEntry
    rw [hlk, hcl]
    exact decode_spec source rng i _ b.2
  refine ⟨b, hb, hde, ?_, hoff, hdig⟩
  unfold payloadOf
  rw [hde]

theorem convert_entryOk (source : Qcow3) (rng : RandomMaterial)
    (bl : List (Nat × ByteStr)) (coff : Nat)
    (hlen : ∀ b ∈ bl, b.2.length = source.cluster_size) :
    ∀ ie ∈ ((specPairs coff bl).map Prod.fst).enum,
      entryOk (convertPH source rng) ((specPairs coff bl).map Prod.snd) ie = true := by
  intro ie hie
  have hmem : ie.2 ∈ (specPairs coff bl).map Prod.fst := mem_enum_snd hie
  obtain ⟨pr, hpr, hpr1⟩ := List.mem_map.mp hmem
  obtain ⟨b, hb, hde, hpay, hoff, hdig⟩ := convert_payload source rng bl coff pr hpr ie.1
  unfold entryOk
  rw [← hpr1, hde]
  simp [convertPH, hlen b hb, hdig, sha256]

/-- The apply loop on the digest entries `convert` emits deposits exactly the
populated blocks. -/
theorem applyFold_blocks (source : Qcow3) (rng : RandomMaterial)
    (clustersAll : List (Nat × Cluster)) :
    ∀ (bl : List (Nat × ByteStr)) (coff k : Nat) (dest : ByteStr),
      (∀ pr ∈ specPairs coff bl,
        lookupCluster clustersAll pr.1.cluster_offset = .ok pr.2.2) →
      applyFold (convertPH source rng) clustersAll dest
          (((specPairs coff bl).map Prod.fst).enumFrom k) =
        bl.foldl (fun d b => writeAt d b.1 b.2) dest := by
  intro bl
  induction bl with
  | nil => intro coff k dest _; rfl
  | cons b rest ih =>
    intro coff k dest hlook
    rw [specPairs_cons, List.map_cons]
    show applyFold _ _ _ ((k, _) :: _) = _
    have hpr0 : (({ cluster_offset := coff, block_offset := b.1, digest := sha256 b.2 },
        (coff, { size := (specBody b.2).length, data := specBody b.2 })) :
          DigestTableEntry × (Nat × Cluster)) ∈ specPairs coff (b :: rest) := by
      rw [specPairs_cons]
      exact List.mem_cons_self _ _
    have hlk := hlook _ hpr0
    have hpay : payloadOf (convertPH source rng) clustersAll k
        { cluster_offset := coff, block_offset := b.1, digest := sha256 b.2 } = b.2 := by
      unfold payloadOf decodeEntry
      rw [hlk]
      simp [decode_spec]
    unfold applyFold
    rw [List.foldl_cons, List.foldl_cons]
    show applyFold _ _ _ _ = _
    rw [hpay]
    exact ih (coff + 4 + (specBody b.2).length) (k + 1) _
      (fun pr hpr => hlook pr (by rw [specPairs_cons]; exact List.mem_cons_of_mem _ hpr))

/-- The result of `open` on an unencrypted, in-plaintext image. -/
theorem openHandle_plain {stem : String} {img : GbImage} {ph : ProtectedHeader}
    {cfgC : BuildConfig} {dir : Directory} (hver : img.primary_header.version = 1)
    (henc : img.primary_header.encryption_type = .None)
    (hp : img.protected_region = .plain ph) (hc : img.config_region = .plain cfgC)
    (hd : img.directory_region = .plain dir) :
    openHandle stem img = .ok
      { primary_header := img.primary_header, protected_header := some ph
        config := some cfgC, digest_table := none, directory := some dir
        id := if hasHexRun64 stem.data then stem else compute_id img
        file_size := img.primary_header.directory_offset +
          img.primary_header.directory_size } := by
  unfold openHandle
  simp [hver, henc, hp, hc, hd, readPlain, exBind_ok, exPure]

/-- The result of `load` on an unencrypted, in-plaintext image: the password
is ignored. -/
theorem load_plain {img : GbImage} {ph : ProtectedHeader} {cfgC : BuildConfig}
    {dir : Directory} {dt : DigestTable} (henc : img.primary_header.encryption_type = .None)
    (hdir : img.directory_region = .plain dir) (hp : img.protected_region = .plain ph)
    (hc : img.config_region = .plain cfgC) (hdt : img.digest_region = .plain dt)
    (pw : Option String) :
    load img pw = .ok
      { directory := dir, protected_header := ph, config := cfgC, digest_table := dt } := by
  unfold load loadRegion
  simp [henc, hdir, hp, hc, hdt, readPlain, exBind_ok, exPure]

/-- What `convert` produces for an unencrypted capture (`password = None`):
everything in plaintext, clusters and digest entries as `specPairs` describes
them. -/
theorem convert_none_fields (source : Qcow3) (cfg : BuildConfig) (rng : RandomMaterial)
    (ts ce : Nat) (hpw : cfg.password = none)
    (hname : (utf8Bytes cfg.name).length ≤ 64)
    (hcont : ∀ l1 ∈ source.l1_table, ∀ es, l1.l2_table = some es →
      ∀ e ∈ es, e.is_used = true → e.contents.isSome = true) :
    ∃ img hd0, convert source cfg rng ts ce = .ok (img, hd0) ∧
      img.primary_header.version = 1 ∧
      img.primary_header.encryption_type = .None ∧
      img.primary_header.size = source.size ∧
      img.protected_region = .plain (convertPH source rng) ∧
      img.config_region = .plain { cfg with password := none } ∧
      img.digest_region = .plain
        ⟨count_clusters source, (specPairs ce (populatedBlocks source)).map Prod.fst⟩ ∧
      img.directory_region = .plain (regionValue img.directory_region) ∧
      img.clusters = (specPairs ce (populatedBlocks source)).map Prod.snd := by
  have hfold := @convFold_l1 (convertPH source rng) rfl rfl source.cluster_size
    source.l2_entries_per_cluster source.l1_table (ConvState.mk 0 0 ce [] []) hcont
  simp only [List.nil_append, Nat.zero_add] at hfold
  have hST : ∃ st, (source.l1_table.foldlM
      (convStepL1 (convertPH source rng) source.cluster_size source.l2_entries_per_cluster)
      (ConvState.mk 0 0 ce [] [])) = .ok st ∧
      st.digests = (specPairs ce (populatedBlocks source)).map Prod.fst ∧
      st.clusters = (specPairs ce (populatedBlocks source)).map Prod.snd :=
    ⟨_, hfold, rfl, rfl⟩
  obtain ⟨st, hfold2, hstd, hstc⟩ := hST
  refine ⟨(convertGbResult source cfg rng ts ce st).1,
    (convertGbResult source cfg rng ts ce st).2, ?_, ?_, ?_, ?_, ?_, ?_, ?_, ?_, ?_⟩
  · rw [convert_unfold, if_neg (by omega), hfold2]
    rfl
  · simp [convertGbResult, convertPH, hpw, mkRegion]
  · simp [convertGbResult, convertPH, hpw, mkRegion]
  · simp [convertGbResult, convertPH, hpw, mkRegion]
  · simp [convertGbResult, convertPH, hpw, mkRegion]
  · simp [convertGbResult, convertPH, hpw, mkRegion]
  · simp [convertGbResult, convertPH, hpw, mkRegion, hstd]
  · simp [convertGbResult, convertPH, hpw, mkRegion, regionValue]
  · simp [convertGbResult, convertPH, hpw, mkRegion, hstc]

/-- What `convert` produces for an encrypted capture (`password = Some p`):
an `Aes256` header whose directory region is sealed under the key derived
from `p` and the directory nonce drawn from the RNG. -/
theorem convert_some_fields (source : Qcow3) (cfg : BuildConfig) (rng : RandomMaterial)
    (ts ce : Nat) (p : String) (hpw : cfg.password = some p)
    (hname : (utf8Bytes cfg.name).length ≤ 64)
    (hcont : ∀ l1 ∈ source.l1_table, ∀ es, l1.l2_table = some es →
      ∀ e ∈ es, e.is_used = true → e.contents.isSome = true) :
    ∃ img hd0, convert source cfg rng ts ce = .ok (img, hd0) ∧
      img.primary_header.encryption_type = .Aes256 ∧
      img.primary_header.directory_nonce = rng.directory_nonce ∧
      img.directory_region =
        .enc (new_key p) rng.directory_nonce (regionValue img.directory_region) := by
  have hfold := @convFold_l1 (convertPH source rng) rfl rfl source.cluster_size
    source.l2_entries_per_cluster source.l1_table (ConvState.mk 0 0 ce [] []) hcont
  obtain ⟨st, hfold2⟩ : ∃ st, (source.l1_table.foldlM
      (convStepL1 (convertPH source rng) source.cluster_size source.l2_entries_per_cluster)
      (ConvState.mk 0 0 ce [] [])) = .ok st := ⟨_, hfold⟩
  refine ⟨(convertGbResult source cfg rng ts ce st).1,
    (convertGbResult source cfg rng ts ce st).2, ?_, ?_, ?_, ?_⟩
  · rw [convert_unfold, if_neg (by omega), hfold2]
    rfl
  · simp [convertGbResult, convertPH, hpw, mkRegion]
  · simp [convertGbResult, convertPH, hpw, mkRegion]
  · simp [convertGbResult, convertPH, hpw, mkRegion, regionValue]

theorem captureApply_eq {source : Qcow3} {cfg : BuildConfig} {rng : RandomMaterial}
    {ts ce : Nat} {img : GbImage} {hd0 hdO : ImageHandle} {lm : LoadedMeta}
    {stem : String} (hconv : convert source cfg rng ts ce = .ok (img, hd0))
    (hopen : openHandle stem img = .ok hdO) (hload : load img none = .ok lm) :
    captureApply source cfg rng ts ce stem =
      (write { hdO with
                directory := some lm.directory
                protected_header := some lm.protected_header
                digest_table := some lm.digest_table
                config := some lm.config } img []).map Prod.fst := by
  unfold captureApply loadH
  rw [hconv]
  simp only [exBind_ok]
  rw [hopen]
  simp only [exBind_ok]
  rw [hload]
  simp only [Except.map, exBind_ok]
  cases hw : write { hdO with
      directory := some lm.directory
      protected_header := some lm.protected_header
      digest_table := some lm.digest_table
      config := some lm.config } img [] with
  | error e => simp [hw, exBind_error]
  | ok y => simp [hw, exBind_ok, exPure]

/-- Claim C2: the unencrypted round trip. Capturing a well-formed qcow2 with
no password, opening and loading the result, and applying it to a fresh
target reproduces exactly the plaintext disk the qcow2 represents; every
populated block sits at its block offset and every other byte below the
logical size is zero. -/
theorem roundtrip_unencrypted (source : Qcow3) (cfg : BuildConfig) (rng : RandomMaterial)
    (ts ce : Nat) (stem : String) (hwf : qcow_wf source = true)
    (hpw : cfg.password = none) (hname : (utf8Bytes cfg.name).length ≤ 64) :
    captureApply source cfg rng ts ce stem = .ok (qcowPlaintext source) ∧
      (∀ b ∈ populatedBlocks source,
        readExact (qcowPlaintext source) b.1 source.cluster_size = .ok b.2) ∧
      (qcowPlaintext source).length = source.size ∧
      (∀ j, j < source.size →
        (∀ b ∈ populatedBlocks source, j < b.1 ∨ b.1 + source.cluster_size ≤ j) →
        (qcowPlaintext source)[j]? = some 0) := by
  obtain ⟨hcs, hlen, hbnd, hcont⟩ := qcow_wf_spec hwf
  obtain ⟨img, hd0, hconv, hver, henc, hsize, hprr, hcr, hdgr, hdirr, hclus⟩ :=
    convert_none_fields source cfg rng ts ce hpw hname hcont
  have hopen := @openHandle_plain stem img (convertPH source rng)
    { cfg with password := none } (regionValue img.directory_region) hver henc hprr hcr hdirr
  have hload := load_plain henc hdirr hprr hcr hdgr none
  -- the loaded handle, kept opaque except for the facts `write` needs
  obtain ⟨hdL, hca2, hlph, hldt, hlsz⟩ : ∃ hdL,
      captureApply source cfg rng ts ce stem = (write hdL img []).map Prod.fst ∧
        hdL.protected_header = some (convertPH source rng) ∧
        hdL.digest_table = some
          ⟨count_clusters source, (specPairs ce (populatedBlocks source)).map Prod.fst⟩ ∧
        hdL.primary_header.size = source.size :=
    ⟨_, captureApply_eq hconv hopen hload, rfl, rfl, hsize⟩
  -- facts about the digest entries and clusters convert wrote
  have hok : ∀ ie ∈ ((specPairs ce (populatedBlocks source)).map Prod.fst).enum,
      entryOk (convertPH source rng)
        ((specPairs ce (populatedBlocks source)).map Prod.snd) ie = true :=
    convert_entryOk source rng (populatedBlocks source) ce hlen
  have hbound : ∀ ie ∈ ((specPairs ce (populatedBlocks source)).map Prod.fst).enum,
      ie.2.block_offset + (convertPH source rng).block_size ≤ source.size := by
    intro ie hie
    obtain ⟨pr, hpr, hpr1⟩ := List.mem_map.mp (mem_enum_snd hie)
    obtain ⟨b, hb, hoff, _, _⟩ := mem_specPairs _ _ pr hpr
    have hbs : (convertPH source rng).block_size = source.cluster_size := rfl
    rw [hbs, ← hpr1, hoff]
    exact hbnd b hb
  have hpl : ∀ ie ∈ ((specPairs ce (populatedBlocks source)).map Prod.fst).enum,
      (payloadOf (convertPH source rng)
        ((specPairs ce (populatedBlocks source)).map Prod.snd) ie.1 ie.2).length =
        (convertPH source rng).block_size :=
    fun ie hie => (entryOk_payload (hok ie hie)).2.1
  have hpw2 : List.Pairwise
      (fun a b : Nat × DigestTableEntry =>
        a.2.block_offset + (convertPH source rng).block_size ≤ b.2.block_offset)
      (((specPairs ce (populatedBlocks source)).map Prod.fst).enum) := by
    have h1 : List.Pairwise
        (fun a b : Nat × ByteStr => a.1 + source.cluster_size ≤ b.1)
        (populatedBlocks source) := l1Blocks_pairwise source.l1_table 0
    have h3 : List.Pairwise
        (fun a b : DigestTableEntry =>
          a.block_offset + source.cluster_size ≤ b.block_offset)
        ((specPairs ce (populatedBlocks source)).map Prod.fst) :=
      List.pairwise_map.mpr (specPairs_pairwise (populatedBlocks source) ce h1)
    rw [List.enum_eq_enumFrom]
    exact pairwise_enumFrom _ 0 h3
  -- the deposited disk is the plaintext disk
  have hqp : applyFold (convertPH source rng)
      ((specPairs ce (populatedBlocks source)).map Prod.snd)
      (List.replicate source.size 0)
      (((specPairs ce (populatedBlocks source)).map Prod.fst).enum) =
      qcowPlaintext source := by
    rw [List.enum_eq_enumFrom,
      applyFold_blocks source rng _ (populatedBlocks source) ce 0 _
        (fun pr hpr => specPairs_lookup _ _ pr hpr)]
    rfl
  have hboundR : ∀ ie ∈ ((specPairs ce (populatedBlocks source)).map Prod.fst).enum,
      ie.2.block_offset + (convertPH source rng).block_size ≤
        (List.replicate source.size (0 : Nat)).length := by
    intro ie hie
    rw [List.length_replicate]
    exact hbound ie hie
  -- first conjunct: running the pipeline produces the plaintext disk
  have hwr : write hdL img [] = .ok (qcowPlaintext source,
      ((write hdL img []).toOption.map Prod.snd).getD 0) := by
    obtain ⟨c, hrun⟩ := applyGo_run
      (((specPairs ce (populatedBlocks source)).map Prod.fst).enum)
      (List.replicate source.size 0) 0 hok hboundR
    have hwe : write hdL img [] = .ok (qcowPlaintext source, c) := by
      rw [write_eq_applyGo hlph hldt (by
        show ((specPairs ce (populatedBlocks source)).map Prod.fst).length =
          count_clusters source
        rw [List.length_map, length_specPairs, count_clusters_eq]) [], hlsz, extendTo_nil,
        hclus]
      rw [hrun, hqp]
    rw [hwe]
    rfl
  refine ⟨?_, ?_, ?_, ?_⟩
  · rw [hca2, hwr]
    rfl
  · intro b hb
    obtain ⟨pr, hpr, hoff, hdig, hcl⟩ := mem_specPairs_rev (populatedBlocks source) ce b hb
    have hfst : pr.1 ∈ (specPairs ce (populatedBlocks source)).map Prod.fst :=
      List.mem_map_of_mem Prod.fst hpr
    obtain ⟨i, hienum⟩ := mem_enumFrom_of_mem _ 0 hfst
    have hie : ((i, pr.1) : Nat × DigestTableEntry) ∈
        ((specPairs ce (populatedBlocks source)).map Prod.fst).enum := by
      rw [List.enum_eq_enumFrom]
      exact hienum
    have hrb := applyFold_readback
      (((specPairs ce (populatedBlocks source)).map Prod.fst).enum)
      (List.replicate source.size 0) hpl hboundR hpw2 (i, pr.1) hie
    have hde : decodeEntry (convertPH source rng)
        ((specPairs ce (populatedBlocks source)).map Prod.snd) i pr.1 = .ok b.2 := by
      unfold decodeEntry
      rw [specPairs_lookup _ _ pr hpr, hcl]
      exact decode_spec source rng i _ b.2
    have hpay : payloadOf (convertPH source rng)
        ((specPairs ce (populatedBlocks source)).map Prod.snd) i pr.1 = b.2 := by
      unfold payloadOf
      rw [hde]
    rw [← hqp, ← hoff, ← hpay]
    exact hrb
  · rw [← hqp, applyFold_length _ _ hpl hboundR, List.length_replicate]
  · intro j hj huncov
    have houts : ∀ ie ∈ ((specPairs ce (populatedBlocks source)).map Prod.fst).enum,
        j < ie.2.block_offset ∨
          ie.2.block_offset + (convertPH source rng).block_size ≤ j := by
      intro ie hie
      obtain ⟨pr, hpr, hpr1⟩ := List.mem_map.mp (mem_enum_snd hie)
      obtain ⟨b, hb, hoff, _, _⟩ := mem_specPairs _ _ pr hpr
      have hbs : (convertPH source rng).block_size = source.cluster_size := rfl
      rw [hbs, ← hpr1, hoff]
      exact huncov b hb
    rw [← hqp, applyFold_getElem_outside _ _ j hpl hboundR houts,
      List.getElem?_replicate, if_pos hj]

/-- Witness for C2 at the concrete qcow2 `q1`: the full pipeline with no
password yields exactly the plaintext disk `[7, 7, 0, 0, 0, 0, 0, 0]`. -/
theorem roundtrip_unencrypted_witness :
    qcow_wf q1 = true ∧ cfgNone.password = none ∧
      (utf8Bytes cfgNone.name).length ≤ 64 ∧
      captureApply q1 cfgNone rng1 0 200 "small" = .ok (qcowPlaintext q1) :=
  ⟨by decide, rfl, by decide,
    (roundtrip_unencrypted q1 cfgNone rng1 0 200 "small" (by decide) rfl (by decide)).1⟩

/-- Claim C4, counterexample to the original statement: over the image
`imgBad`, whose digest entry records a hash other than its block's, the
second apply re-reads a mismatching block and takes the else branch again
(the run counter of the second `write` is 1, not 0), so idempotence of the
write count fails for a general loaded handle. -/
theorem write_second_run_not_skipped :
    (write hBad imgBad []).bind (fun r => write hBad imgBad r.1) =
      .ok ([7, 7, 0, 0], 1) := by decide

/-- Witness for C4 (amended) at the concrete consistent handle `hGood`: the
first apply writes the block once, the second applies the theorem and takes
the else branch zero times. -/
theorem write_idempotent_witness :
    handleWF hGood imgGood = true ∧
      write hGood imgGood [] = .ok ([7, 7, 0, 0], 1) ∧
      write hGood imgGood [7, 7, 0, 0] = .ok ([7, 7, 0, 0], 0) :=
  ⟨by decide, by decide,
    @write_idempotent hGood imgGood [] ([7, 7, 0, 0], 1) (by decide) (by decide)⟩

/-- Claim C5: `change_password` never rewrites anything; the source function
builds the new cipher and then hits `todo!()`, an unconditional panic, for
every pair of passwords. -/
theorem change_password_panics :
    ∀ old_password new_password,
      change_password old_password new_password = .error ImgError.Panic :=
  fun _ _ => rfl

/-- Claim C6 (amended): `convert` creates the destination file on entry and
no failure path removes it, so after a failing capture the partial output
file is still present at the destination path. -/
theorem convert_error_leaves_file (source : Qcow3) (config0 : BuildConfig)
    (rng : RandomMaterial) (timestamp config_end : Nat) :
    (convertFs source config0 rng timestamp config_end).dest_file_exists = true := rfl

/-- Claim C6, counterexample to the original statement: on a qcow2 whose
cluster read fails, capture errors out yet the destination file remains. -/
theorem convert_error_file_remains :
    convertFs qUnread cfgNone rng1 0 200 =
      ⟨true, .error ImgError.QcowRead⟩ := by decide

/-- Claim C9: `load` treats an absent password as the empty string — the two
calls derive the same key and are the same computation, returning the same
result and leaving the handle in the same state. -/
theorem load_none_is_empty (img : GbImage) (h : ImageHandle) :
    load img none = load img (some "") ∧
      loadUpdate h img none = loadUpdate h img (some "") :=
  ⟨rfl, rfl⟩

/-- Claim C1, the divergence: `convert` clears the config's password before
testing it for `cluster_encryption` and the nonce table, so even when a
password is supplied the written protected header has cluster encryption off
and an empty nonce table, and every cluster body is a plain Zstd frame,
never an AES-256-GCM ciphertext. -/
theorem convert_password_clusters_plaintext (source : Qcow3) (cfg : BuildConfig)
    (rng : RandomMaterial) (ts ce : Nat) (p : String) (_hpw : cfg.password = some p)
    (hname : (utf8Bytes cfg.name).length ≤ 64)
    (hcont : ∀ l1 ∈ source.l1_table, ∀ es, l1.l2_table = some es →
      ∀ e ∈ es, e.is_used = true → e.contents.isSome = true) :
    ∃ img hd0, convert source cfg rng ts ce = .ok (img, hd0) ∧
      hd0.protected_header = some (convertPH source rng) ∧
      (convertPH source rng).cluster_encryption = ClusterEncryptionType.None ∧
      (convertPH source rng).nonce_count = 0 ∧
      (convertPH source rng).nonce_table = [] ∧
      ∀ c ∈ img.clusters, ∃ d : ByteStr, c.2.data = Bytes.zstd (Bytes.raw d) := by
  have hfold := @convFold_l1 (convertPH source rng) rfl rfl source.cluster_size
    source.l2_entries_per_cluster source.l1_table (ConvState.mk 0 0 ce [] []) hcont
  simp only [List.nil_append, Nat.zero_add] at hfold
  have hST : ∃ st, (source.l1_table.foldlM
      (convStepL1 (convertPH source rng) source.cluster_size source.l2_entries_per_cluster)
      (ConvState.mk 0 0 ce [] [])) = .ok st ∧
      st.clusters = (specPairs ce (populatedBlocks source)).map Prod.snd :=
    ⟨_, hfold, rfl⟩
  obtain ⟨st, hfold2, hstc⟩ := hST
  refine ⟨(convertGbResult source cfg rng ts ce st).1,
    (convertGbResult source cfg rng ts ce st).2, ?_, rfl, rfl, rfl, rfl, ?_⟩
  · rw [convert_unfold, if_neg (by omega), hfold2]
    rfl
  · intro c hc
    have hcl : (convertGbResult source cfg rng ts ce st).1.clusters = st.clusters := rfl
    rw [hcl, hstc] at hc
    obtain ⟨pr, hpr, hpr2⟩ := List.mem_map.mp hc
    obtain ⟨b, hb, _, _, hclu⟩ := mem_specPairs _ _ pr hpr
    refine ⟨b.2, ?_⟩
    rw [← hpr2, hclu]
    rfl

/-- Witness for C1 at the concrete qcow2 `q1` with password "1234": capture
succeeds with cluster encryption off, no nonces, and the plain Zstd body. -/
theorem convert_password_clusters_plaintext_witness :
    cfg1234.password = some "1234" ∧ (utf8Bytes cfg1234.name).length ≤ 64 ∧
      (∃ img hd0, convert q1 cfg1234 rng1 0 200 = .ok (img, hd0) ∧
        hd0.protected_header = some (convertPH q1 rng1) ∧
        (convertPH q1 rng1).cluster_encryption = ClusterEncryptionType.None ∧
        (convertPH q1 rng1).nonce_count = 0 ∧
        (convertPH q1 rng1).nonce_table = [] ∧
        ∀ c ∈ img.clusters, ∃ d : ByteStr, c.2.data = Bytes.zstd (Bytes.raw d)) :=
  ⟨rfl, by decide,
    convert_password_clusters_plaintext q1 cfg1234 rng1 0 200 "1234" rfl
      (by decide) (by decide)⟩

/-- Claim C3 (amended): loading an encrypted capture with a password whose
byte encoding differs from the capture password's fails with
`AuthenticationFailed` on the directory, and the handle's four metadata
fields stay exactly as they were. Passwords are discriminated by their byte
encodings: `None` is first defaulted to the empty string, so `None` and
`Some ""` are the same password. -/
theorem load_wrong_password_fails (source : Qcow3) (cfg : BuildConfig)
    (rng : RandomMaterial) (ts ce : Nat) (p : String) (hpw : cfg.password = some p)
    (hname : (utf8Bytes cfg.name).length ≤ 64)
    (hcont : ∀ l1 ∈ source.l1_table, ∀ es, l1.l2_table = some es →
      ∀ e ∈ es, e.is_used = true → e.contents.isSome = true)
    (pw' : Option String) (hne : strBytes (pw'.getD "") ≠ strBytes p) :
    ∃ img hd0, convert source cfg rng ts ce = .ok (img, hd0) ∧
      load img pw' = .error ImgError.AuthenticationFailed ∧
      (∀ h, loadH h img pw' = .error ImgError.AuthenticationFailed) ∧
      (∀ h, loadUpdate h img pw' = h) := by
  obtain ⟨img, hd0, hconv, henc, hnonce, hdir⟩ :=
    convert_some_fields source cfg rng ts ce p hpw hname hcont
  refine ⟨img, hd0, hconv, ?_⟩
  have hstep : loadRegion img.primary_header.encryption_type (new_key (pw'.getD ""))
      img.primary_header.directory_nonce img.directory_region =
      .error ImgError.AuthenticationFailed := by
    rw [henc, hnonce, hdir]
    show (if new_key p = new_key (pw'.getD "") ∧
        rng.directory_nonce = rng.directory_nonce
      then Except.ok (regionValue img.directory_region)
      else .error ImgError.AuthenticationFailed) = .error ImgError.AuthenticationFailed
    rw [if_neg (fun hc => hne hc.1.symm)]
  have hload : load img pw' = .error ImgError.AuthenticationFailed := by
    unfold load
    simp only [hstep, exBind_error]
  refine ⟨hload, fun h => ?_, fun h => ?_⟩
  · unfold loadH
    rw [hload]
    rfl
  · unfold loadUpdate
    rw [hload]

/-- Witness for C3 (amended) at the concrete capture of `q1` under "1234":
loading with "xx" fails with `AuthenticationFailed` and changes nothing. -/
theorem load_wrong_password_fails_witness :
    cfg1234.password = some "1234" ∧
      strBytes ((some "xx" : Option String).getD "") ≠ strBytes "1234" ∧
      (∃ img hd0, convert q1 cfg1234 rng1 0 200 = .ok (img, hd0) ∧
        load img (some "xx") = .error ImgError.AuthenticationFailed ∧
        (∀ h, loadH h img (some "xx") = .error ImgError.AuthenticationFailed) ∧
        (∀ h, loadUpdate h img (some "xx") = h)) :=
  ⟨rfl, by decide,
    load_wrong_password_fails q1 cfg1234 rng1 0 200 "1234" rfl (by decide) (by decide)
      (some "xx") (by decide)⟩

/-- Claim C3, counterexample to the original statement: `Some ""` and `None`
are distinct passwords, yet an image captured with `password = Some ""` loads
successfully with `password = None` — the code defaults an absent password to
the empty string before deriving the key. -/
theorem load_empty_vs_none :
    ((convert q1 cfgEmpty rng1 0 200).toOption.map
      (fun r => (load r.1 none).toOption.isSome)) = some true := by decide

/-- Claim C7 (amended): the id `open` assigns depends on the file stem — it
is the stem itself whenever the stem contains a run of 64 hex characters
anywhere (the regex match is unanchored), and the hex-encoded hash of the
file's contents only otherwise. -/
theorem open_id_policy (stem : String) (img : GbImage) :
    exceptProp (openHandle stem img)
      (fun h => decide (h.id =
        if hasHexRun64 stem.data then stem else compute_id img)) = true := by
  by_cases hv : img.primary_header.version = 1
  · by_cases he : img.primary_header.encryption_type = HeaderEncryptionType.None
    · cases hp : img.protected_region with
      | plain pv =>
        cases hd : img.directory_region with
        | plain dv =>
          cases hc : img.config_region with
          | plain cv =>
            simp [openHandle, exceptProp, hv, he, hp, hd, hc, readPlain,
              exBind_ok, exBind_error, exPure]
          | enc k n cv =>
            simp [openHandle, exceptProp, hv, he, hp, hd, hc, readPlain,
              exBind_ok, exBind_error, exPure]
        | enc k n dv =>
          simp [openHandle, exceptProp, hv, he, hp, hd, readPlain,
            exBind_ok, exBind_error, exPure]
      | enc k n pv =>
        simp [openHandle, exceptProp, hv, he, hp, readPlain,
          exBind_ok, exBind_error, exPure]
    · simp [openHandle, exceptProp, hv, he, exBind_ok, exBind_error, exPure]
  · simp [openHandle, exceptProp, hv, exBind_ok, exBind_error, exThrow, exPure]

/-- Claim C7, counterexample to the original statement: opening a freshly
captured image under a stem of 64 hex characters assigns the stem as the id,
which differs from the hash of the file's contents. -/
theorem open_id_from_stem :
    ((convert q1 cfgNone rng1 0 200).toOption.map (fun r =>
      (openHandle stem64 r.1).toOption.map
        (fun h => decide (h.id = compute_id r.1)))) = some (some false) := by decide

/-- Claim C8 (amended): `open` never populates the digest table, and for an
encrypted image it leaves the protected header, config and directory absent
as well — but for an unencrypted image it reads and populates those three
eagerly, so the all-absent Opened state holds only under encryption. -/
theorem open_states (stem : String) (img : GbImage) :
    exceptProp (openHandle stem img)
      (fun h => decide (h.digest_table = none) &&
        (decide (img.primary_header.encryption_type = HeaderEncryptionType.None) ||
          (decide (h.protected_header = none) && decide (h.config = none) &&
            decide (h.directory = none)))) = true := by
  by_cases hv : img.primary_header.version = 1
  · by_cases he : img.primary_header.encryption_type = HeaderEncryptionType.None
    · cases hp : img.protected_region with
      | plain pv =>
        cases hd : img.directory_region with
        | plain dv =>
          cases hc : img.config_region with
          | plain cv =>
            simp [openHandle, exceptProp, hv, he, hp, hd, hc, readPlain,
              exBind_ok, exBind_error, exPure]
          | enc k n cv =>
            simp [openHandle, exceptProp, hv, he, hp, hd, hc, readPlain,
              exBind_ok, exBind_error, exPure]
        | enc k n dv =>
          simp [openHandle, exceptProp, hv, he, hp, hd, readPlain,
            exBind_ok, exBind_error, exPure]
      | enc k n pv =>
        simp [openHandle, exceptProp, hv, he, hp, readPlain,
          exBind_ok, exBind_error, exPure]
    · simp [openHandle, exceptProp, hv, he, exBind_ok, exBind_error, exPure]
  · simp [openHandle, exceptProp, hv, exBind_ok, exBind_error, exThrow, exPure]

/-- Claim C8, counterexample to the original statement: opening an
unencrypted capture returns a handle whose protected header, config and
directory are already populated, not absent. -/
theorem open_plain_populates :
    ((convert q1 cfgNone rng1 0 200).toOption.map (fun r =>
      (openHandle "x" r.1).toOption.map (fun h =>
        h.protected_header.isSome && h.config.isSome && h.directory.isSome))) =
      some (some true) := by decide

theorem convStepUsed_not_panic {ph : ProtectedHeader}
    (hph : ph.cluster_encryption = ClusterEncryptionType.None)
    (st : ConvState) (e : QcowL2Entry) :
    convStepUsed ph st e = .error ImgError.QcowRead ∨
      ∃ st2, convStepUsed ph st e = .ok st2 := by
  cases hc : e.contents with
  | none =>
    left
    unfold convStepUsed
    simp [hc, exBind_error, exThrow]
  | some d =>
    right
    unfold convStepUsed
    simp only [hc, hph, exBind_ok, exPure]
    exact ⟨_, rfl⟩

theorem convStepL2_cases {ph : ProtectedHeader}
    (hph : ph.cluster_encryption = ClusterEncryptionType.None)
    (cs : Nat) (st : ConvState) (e : QcowL2Entry) :
    convStepL2 ph cs st e = .error ImgError.QcowRead ∨
      ∃ st2, convStepL2 ph cs st e = .ok st2 := by
  cases hu : e.is_used with
  | false =>
    right
    unfold convStepL2
    simp only [hu, Bool.false_eq_true, if_false, exBind_ok, exPure]
    exact ⟨_, rfl⟩
  | true =>
    rcases convStepUsed_not_panic hph st e with herr | ⟨st2, hok⟩
    · left
      unfold convStepL2
      simp [hu, herr, exBind_error]
    · right
      unfold convStepL2
      simp only [hu, if_true, hok, exBind_ok, exPure]
      exact ⟨_, rfl⟩

theorem convL2_not_panic {ph : ProtectedHeader}
    (hph : ph.cluster_encryption = ClusterEncryptionType.None) (cs : Nat) :
    ∀ (es : List QcowL2Entry) (st : ConvState),
      es.foldlM (convStepL2 ph cs) st ≠ .error ImgError.Panic := by
  intro es
  induction es with
  | nil => intro st h; exact Except.noConfusion h
  | cons e rest ih =>
    intro st h
    rw [List.foldlM_cons] at h
    rcases convStepL2_cases hph cs st e with hstep | ⟨st2, hstep⟩
    · rw [hstep, exBind_error] at h
      exact ImgError.noConfusion (Except.error.inj h)
    · rw [hstep, exBind_ok] at h
      exact ih st2 h

theorem convL1_not_panic {ph : ProtectedHeader}
    (hph : ph.cluster_encryption = ClusterEncryptionType.None) (cs l2n : Nat) :
    ∀ (l1s : List QcowL1Entry) (st : ConvState),
      l1s.foldlM (convStepL1 ph cs l2n) st ≠ .error ImgError.Panic := by
  intro l1s
  induction l1s with
  | nil => intro st h; exact Except.noConfusion h
  | cons l1 rest ih =>
    intro st h
    rw [List.foldlM_cons] at h
    cases hstep : convStepL1 ph cs l2n st l1 with
    | error err =>
      rw [hstep, exBind_error] at h
      have herr : err = ImgError.Panic := Except.error.inj h
      rw [herr] at hstep
      unfold convStepL1 at hstep
      cases hl : l1.l2_table with
      | some es =>
        rw [hl] at hstep
        exact convL2_not_panic hph cs es st hstep
      | none =>
        rw [hl] at hstep
        exact Except.noConfusion hstep
    | ok st2 =>
      rw [hstep, exBind_ok] at h
      exact ih st2 h

/-- Claim C10: copying the manifest name into the fixed 64-byte primary
header field is in bounds exactly when the name's UTF-8 encoding fits in 64
bytes; `convert` panics if and only if the name is longer — no other path
through `convert` panics, and a longer name is never truncated or turned
into an ordinary error. -/
theorem convert_name_panic_iff (source : Qcow3) (cfg : BuildConfig)
    (rng : RandomMaterial) (ts ce : Nat) :
    convert source cfg rng ts ce = .error ImgError.Panic ↔
      64 < (utf8Bytes cfg.name).length := by
  rw [convert_unfold]
  by_cases hname : 64 < (utf8Bytes cfg.name).length
  · simp [hname]
  · rw [if_neg hname]
    constructor
    · intro h
      exfalso
      cases hfold : source.l1_table.foldlM
          (convStepL1 (convertPH source rng) source.cluster_size
            source.l2_entries_per_cluster) (ConvState.mk 0 0 ce [] []) with
      | error err =>
        rw [hfold] at h
        have herr : err = ImgError.Panic := by
          simpa [Except.map] using h
        rw [herr] at hfold
        exact convL1_not_panic rfl source.cluster_size source.l2_entries_per_cluster
          source.l1_table _ hfold
      | ok st =>
        rw [hfold] at h
        simp [Except.map] at h
    · intro h
      exact absurd h hname

end Goldboot
